import Mathlib

/-!
Shallow embedding of the DeFiCh/indexer core (transaction classifier,
address-value folding, log-event joiner, flow-graph builder and graph
queries), together with theorems checking the natural-language
specification against it.

Each definition is translated from the Rust source file named in its
doc comment.  Machine floats (`f64`) never participate in any arithmetic
that a claim depends on beyond plain accumulation, so values are carried
by a type parameter `V` (with an explicit binary operation where the code
adds them).
-/

namespace Indexer

/-! ## TxType (src/models.rs) -/

/-- `TxType` enum from src/models.rs. -/
inductive TxType where
  | Unknown
  | Coinbase
  | Utxo
  | AutoAuth
  | UtxosToAccount
  | AccountToUtxos
  | AccountToAccount
  | AnyAccountsToAccounts
  | CreateMasternode
  | ResignMasternode
  | PoolSwap
  | CompositeSwap
  | AddPoolLiquidity
  | RemovePoolLiquidity
  | WithdrawFromVault
  | SetOracleData
  | DepositToVault
  | PaybackLoan
  | TakeLoan
  | Vault
  | ICXCreateOrder
  | ICXMakeOffer
  | ICXSubmitDFCHTLC
  | ICXSubmitEXTHTLC
  | ICXClaimDFCHTLC
  | ICXCloseOrder
  | ICXCloseOffer
  | Other (s : String)
  deriving DecidableEq, Repr

/-- `impl From<&str> for TxType` (src/models.rs, long-form name to enum). -/
def TxType.fromStr (value : String) : TxType :=
  match value with
  | "_" => .Unknown
  | "cb" => .Coinbase
  | "utxo" => .Utxo
  | "CreateMasternode" => .CreateMasternode
  | "ResignMasternode" => .ResignMasternode
  | "PoolSwap" => .PoolSwap
  | "CompositeSwap" => .CompositeSwap
  | "AddPoolLiquidity" => .AddPoolLiquidity
  | "RemovePoolLiquidity" => .RemovePoolLiquidity
  | "UtxosToAccount" => .UtxosToAccount
  | "AccountToUtxos" => .AccountToUtxos
  | "AccountToAccount" => .AccountToAccount
  | "WithdrawFromVault" => .WithdrawFromVault
  | "SetOracleData" => .SetOracleData
  | "DepositToVault" => .DepositToVault
  | "PaybackLoan" => .PaybackLoan
  | "TakeLoan" => .TakeLoan
  | "AutoAuth" => .AutoAuth
  | "Vault" => .Vault
  | "AnyAccountsToAccounts" => .AnyAccountsToAccounts
  | "ICXCreateOrder" => .ICXCreateOrder
  | "ICXMakeOffer" => .ICXMakeOffer
  | "ICXSubmitDFCHTLC" => .ICXSubmitDFCHTLC
  | "ICXSubmitEXTHTLC" => .ICXSubmitEXTHTLC
  | "ICXClaimDFCHTLC" => .ICXClaimDFCHTLC
  | "ICXCloseOrder" => .ICXCloseOrder
  | "ICXCloseOffer" => .ICXCloseOffer
  | other => .Other other

/-- `impl Display for TxType` (src/models.rs, enum to short code). -/
def TxType.toStr (t : TxType) : String :=
  match t with
  | .Unknown => "_"
  | .Coinbase => "cb"
  | .Utxo => "u"
  | .AutoAuth => "au"
  | .UtxosToAccount => "+a"
  | .AccountToUtxos => "-a"
  | .AccountToAccount => "aa"
  | .AnyAccountsToAccounts => "ax"
  | .CreateMasternode => "+m"
  | .ResignMasternode => "-m"
  | .PoolSwap => "ps"
  | .CompositeSwap => "cs"
  | .AddPoolLiquidity => "+p"
  | .RemovePoolLiquidity => "-p"
  | .WithdrawFromVault => "v-"
  | .DepositToVault => "v+"
  | .PaybackLoan => "l-"
  | .TakeLoan => "l+"
  | .Vault => "vn"
  | .SetOracleData => "+o"
  | .ICXCreateOrder => "icx-start"
  | .ICXMakeOffer => "icx-of"
  | .ICXSubmitDFCHTLC => "icx-sdfc"
  | .ICXSubmitEXTHTLC => "icx-sbtc"
  | .ICXClaimDFCHTLC => "icx-claim"
  | .ICXCloseOrder => "icx-endor"
  | .ICXCloseOffer => "icx-endof"
  | .Other m => m

/-- `TxType::from_display` (src/models.rs, short code to enum). -/
def TxType.from_display (s : String) : TxType :=
  match s with
  | "_" => .Unknown
  | "cb" => .Coinbase
  | "u" => .Utxo
  | "au" => .AutoAuth
  | "+a" => .UtxosToAccount
  | "-a" => .AccountToUtxos
  | "aa" => .AccountToAccount
  | "ax" => .AnyAccountsToAccounts
  | "+m" => .CreateMasternode
  | "-m" => .ResignMasternode
  | "ps" => .PoolSwap
  | "cs" => .CompositeSwap
  | "+p" => .AddPoolLiquidity
  | "-p" => .RemovePoolLiquidity
  | "v-" => .WithdrawFromVault
  | "v+" => .DepositToVault
  | "l-" => .PaybackLoan
  | "l+" => .TakeLoan
  | "vn" => .Vault
  | "+o" => .SetOracleData
  | "icx-start" => .ICXCreateOrder
  | "icx-of" => .ICXMakeOffer
  | "icx-sdfc" => .ICXSubmitDFCHTLC
  | "icx-sbtc" => .ICXSubmitEXTHTLC
  | "icx-claim" => .ICXClaimDFCHTLC
  | "icx-endor" => .ICXCloseOrder
  | "icx-endof" => .ICXCloseOffer
  | other => .Other other

/-! ## Association lists

`HashMap` values in the source are embedded as association lists with
unique keys; `AL.lookup` is `HashMap::get`, `AL.insert` is
`HashMap::insert` (replace an existing binding), `AL.addOrInsert` is the
`entry(k).and_modify(..).or_insert(v)` pattern. -/

namespace AL

variable {K V : Type} [DecidableEq K]

/-- Map lookup: value of the first (unique) binding of `k`. -/
def lookup : List (K × V) → K → Option V
  | [], _ => none
  | (a, b) :: t, k => if a = k then some b else lookup t k

/-- `HashMap::insert`: replace the binding of `k` or append a new one. -/
def insert : List (K × V) → K → V → List (K × V)
  | [], k, v => [(k, v)]
  | (a, b) :: t, k, v =>
    if a = k then (k, v) :: t else (a, b) :: insert t k v

/-- `entry(k).and_modify(|x| x = add x v).or_insert(v)`. -/
def addOrInsert (add : V → V → V) : List (K × V) → K → V → List (K × V)
  | [], k, v => [(k, v)]
  | (a, b) :: t, k, v =>
    if a = k then (a, add b v) :: t else (a, b) :: addOrInsert add t k v

/-- The keys of an association list. -/
def keys {K V : Type} (m : List (K × V)) : List K := m.map Prod.fst

end AL

/-! ## dfiutils (src/dfiutils.rs) -/

/-- `script_pub_key` of a vout; only the fields the indexer reads. -/
structure ScriptPubKey where
  type : String
  addresses : Option (List String)
  deriving DecidableEq, Repr

/-- A transaction output (src/models.rs `Vout`), value type abstracted
over `V` (`f64` in the source; no arithmetic is performed on it here). -/
structure Vout (V : Type) where
  value : V
  n : Nat
  script_pub_key : ScriptPubKey
  deriving DecidableEq, Repr

/-- A standard (non-coinbase) input reference (src/models.rs
`VinStandard`); only the fields `get_txin_addr_val_list` reads. -/
structure VinStandard where
  txid : String
  vout : Nat
  deriving DecidableEq, Repr

/-- src/models.rs `Vin`: either a coinbase marker or a standard input. -/
inductive Vin where
  | coinbase (data : String)
  | standard (v : VinStandard)
  deriving DecidableEq, Repr

/-- `Vin::assume_standard`. -/
def Vin.assume_standard : Vin → Option VinStandard
  | .standard x => some x
  | .coinbase _ => none

/-- src/models.rs `VMInfo`; the opaque `msg` JSON value is kept as its
serialized text. -/
structure VMInfo where
  vmtype : String
  txtype : String
  msg : String
  deriving DecidableEq, Repr

/-- src/models.rs `Transaction`; only the fields the classifier reads. -/
structure Transaction (V : Type) where
  txid : String
  vin : List Vin
  vout : List (Vout V)
  vm : Option VMInfo
  deriving DecidableEq, Repr

/-- `collect::<Result<Vec<_>, _>>()` over an iterator: first error
short-circuits, otherwise the list of successes in order. -/
def collectE {α β ε : Type} : List α → (α → Except ε β) → Except ε (List β)
  | [], _ => .ok []
  | a :: t, f =>
    match f a with
    | .error e => .error e
    | .ok b =>
      match collectE t f with
      | .error e => .error e
      | .ok bs => .ok (b :: bs)

/-- The closure `map_fn` inside `get_txin_addr_val_list`
(src/dfiutils.rs): dereference one standard vin to the `(address, value)`
of the output it spends.  The store argument embeds
`BlockStore::get_tx_from_hash` (its sqlite error path is infrastructure
and is not modelled). -/
def txinMapFn {V : Type} (store : String → Option (Transaction V))
    (x : VinStandard) : Except String (String × V) :=
  match store x.txid with
  | none => .error ("tx hash not found: " ++ x.txid)
  | some tx =>
    match tx.vout.find? (fun v => v.n == x.vout) with
    | none => .error ("tx vout not found: " ++ x.txid)
    | some utxo =>
      match utxo.script_pub_key.addresses with
      | some addrs =>
        match addrs with
        | [a] => .ok (a, utxo.value)
        | _ => .ok (String.intercalate "+" addrs, utxo.value)
      | none => .error ("input with no addr found: " ++ x.txid)

/-- `get_txin_addr_val_list` (src/dfiutils.rs): coinbase vins are
filtered out, each standard vin is resolved by `txinMapFn`, and the
results are collected with error short-circuit. -/
def get_txin_addr_val_list {V : Type}
    (store : String → Option (Transaction V)) (tx_ins : List Vin) :
    Except String (List (String × V)) :=
  collectE (tx_ins.filterMap Vin.assume_standard) (txinMapFn store)

/-- `get_txout_addr_val_list` (src/dfiutils.rs): each vout maps to its
single address, a `+`-joined composite, or the sentinel `"x"`. -/
def get_txout_addr_val_list {V : Type} (tx_outs : List (Vout V)) :
    List (String × V) :=
  tx_outs.map (fun utxo =>
    let addr :=
      match utxo.script_pub_key.addresses with
      | some addrs => String.intercalate "+" addrs
      | none => "x"
    (addr, utxo.value))

/-- `fold_addr_val_map` (src/dfiutils.rs): fold a `[(addr, val)]` list
into an `addr → Σ val` map.  `add` abstracts `f64` addition (`*x += v`
keeps the accumulated value on the left). -/
def fold_addr_val_map {V : Type} (add : V → V → V)
    (addr_val_list : List (String × V)) : List (String × V) :=
  addr_val_list.foldl (fun m v => AL.addOrInsert add m v.1 v.2) []

/-- The sum of a value list accumulated in list order (`none` when the
list is empty). -/
def sumInOrder {V : Type} (add : V → V → V) : List V → Option V
  | [] => none
  | v :: vs => some (vs.foldl add v)

/-- Fold invariant helper: continue an optional accumulated value with
further values in order. -/
def accValues {V : Type} (add : V → V → V) : Option V → List V → Option V
  | some b, vs => some (vs.foldl add b)
  | none, vs => sumInOrder add vs

/-! ## Transaction classifier (src/cliindexer.rs `run`, per-tx body) -/

/-- The tx-type classification of src/cliindexer.rs lines 157–161 and
249: start from `vm.txtype` (long form to enum), override to `Coinbase`
when the folded input map is empty, store `Unknown` when no type was
assigned. -/
def classify_tx_type {V : Type} (vm : Option VMInfo)
    (tx_in_addrs : List (String × V)) : TxType :=
  let tx_type := vm.map (fun x => TxType.fromStr x.txtype)
  let tx_type := if tx_in_addrs.isEmpty then some TxType.Coinbase else tx_type
  tx_type.getD TxType.Unknown

/-- The partition of src/cliindexer.rs lines 203–206: the DVM addresses
that also occur as a key of the folded input map. -/
def dvm_in_addrs {V : Type} (tx_in_addrs : List (String × V))
    (dvm_addrs : List String) : List String :=
  dvm_addrs.filter (fun addr => tx_in_addrs.any (fun p => p.1 = addr))

/-- The DVM-loop body of src/cliindexer.rs lines 226–240: an existing
`0` flag is upgraded to `2` (UTXO+DVM), an absent pair is inserted with
`1` (DVM only), any other existing flag is left alone. -/
def dvmStep (m : List ((String × String) × Int)) (k : String × String) :
    List ((String × String) × Int) :=
  match AL.lookup m k with
  | some v => if v = 0 then AL.insert m k 2 else m
  | none => AL.insert m k 1

/-- The effect of one `dvmStep` visit on the looked-up flag of the
visited pair. -/
def dvmUpd : Option Int → Option Int
  | some v => if v = 0 then some 2 else some v
  | none => some 1

/-- The per-tx edge changeset of src/cliindexer.rs lines 217–240: every
`(in, out)` of the folded input/output maps gets flag `0`; then every
`(in, out)` of `dvm_in × dvm_addrs` goes through `dvmStep`.  Pairs are
`[in_addr, out_addr]` keyed maps in the source; here
`(in_addr, out_addr)` pairs. -/
def edge_changeset {V : Type} (tx_in_addrs tx_out : List (String × V))
    (dvm_addrs : List String) : List ((String × String) × Int) :=
  let m : List ((String × String) × Int) :=
    tx_out.foldl (fun m out =>
      tx_in_addrs.foldl (fun m in_ => AL.insert m (in_.1, out.1) 0) m) []
  dvm_addrs.foldl (fun m out_addr =>
    (dvm_in_addrs tx_in_addrs dvm_addrs).foldl (fun m in_addr =>
      dvmStep m (in_addr, out_addr)) m) m

/-! ## Graph builder (src/grapher.rs `run`) -/

/-- Character-level split (Rust `str::split(c)`), structural so that
concrete instances reduce in the kernel: splitting at every occurrence
of `c`, keeping empty pieces. -/
def splitOnChar (c : Char) : List Char → List (List Char)
  | [] => [[]]
  | a :: t =>
    let r := splitOnChar c t
    if a = c then [] :: r
    else
      match r with
      | [] => [[a]]
      | h :: t' => (a :: h) :: t'

/-- Rust `addr.split('+')` as strings. -/
def splitPlus (s : String) : List String :=
  (splitOnChar '+' s.toList).map List.asString

/-- `combine_addrs_with_multi_sig` (src/grapher.rs): the first iterator
(folded map keys) has composite `a+b+c` addresses split at `+`; the
second iterator (DVM addresses) is inserted as-is.  The `HashSet` is
embedded as a duplicate-free list in insertion order. -/
def combine_addrs_with_multi_sig (addresses dvm_addresses : List String) :
    List String :=
  let ins := fun (s : List String) (x : String) =>
    if x ∈ s then s else s ++ [x]
  let s := addresses.foldl (fun s addr =>
    if '+' ∈ addr.toList then (splitPlus addr).foldl ins s
    else ins s addr) []
  dvm_addresses.foldl ins s

/-- One stored tx row as the graph builder reads it back
(src/db `TxAddrData`-shaped row): folded input/output maps plus the DVM
in/out address lists. -/
structure GTxRow where
  txid : String
  tx_in : List String
  tx_out : List String
  dvm_in : List String
  dvm_out : List String
  deriving DecidableEq, Repr

/-- The in-memory petgraph state of src/grapher.rs: node labels in
insertion order (a node's id is its position) and labelled edges over
node ids. -/
structure GraphState where
  nodes : List String
  edges : List (Nat × Nat × String)
  node_index : List (String × Nat)
  deriving DecidableEq, Repr

/-- `g.add_node` + `node_index_map.insert` for any address not yet
indexed (src/grapher.rs lines 84–89). -/
def addNodes (st : GraphState) (addrs : List String) : GraphState :=
  addrs.foldl (fun st addr =>
    match AL.lookup st.node_index addr with
    | some _ => st
    | none =>
      { st with
        nodes := st.nodes ++ [addr]
        node_index := st.node_index ++ [(addr, st.nodes.length)] }) st

/-- The per-tx body of the graph builder callback (src/grapher.rs lines
74–98): combine input and output address sets, allocate nodes, then add
one labelled edge per `(from, to)` of the cross product. -/
def grapherStep (st : GraphState) (tx : GTxRow) : GraphState :=
  let tx_ins := combine_addrs_with_multi_sig tx.tx_in tx.dvm_in
  let tx_outs := combine_addrs_with_multi_sig tx.tx_out tx.dvm_out
  let st := addNodes st (tx_ins ++ tx_outs)
  tx_outs.foldl (fun st to_addr =>
    tx_ins.foldl (fun st from_addr =>
      { st with
        edges := st.edges ++
          [((AL.lookup st.node_index from_addr).getD 0,
            (AL.lookup st.node_index to_addr).getD 0, tx.txid)] }) st) st

/-- The whole builder run over the stored rows in iteration order. -/
def buildGraph (txs : List GTxRow) : GraphState :=
  txs.foldl grapherStep { nodes := [], edges := [], node_index := [] }

/-- The `(src_addr, dst_addr, txid)` triples of the built graph, mapping
node ids back through the node labels. -/
def graphTriples (st : GraphState) : List (String × String × String) :=
  st.edges.map (fun e => (st.nodes.getD e.1 "", st.nodes.getD e.2.1 "", e.2.2))

/-- Builder-state invariant: every indexed address points at a valid
node slot carrying that address, and every edge endpoint is a valid
node slot. -/
def GraphInv (st : GraphState) : Prop :=
  (∀ a idx, AL.lookup st.node_index a = some idx →
    idx < st.nodes.length ∧ st.nodes.getD idx "" = a) ∧
  (∀ e ∈ st.edges, e.1 < st.nodes.length ∧ e.2.1 < st.nodes.length)

/-- The triple set the spec's graph-determinism sentence describes:
`⋃_tx (tx_ins × tx_outs) × {txid}` where `tx_ins`/`tx_outs` split EVERY
composite `a+b+c` (also DVM entries) before insertion.  Written from the
claim's words, to be compared with `graphTriples ∘ buildGraph`. -/
def specTriples (txs : List GTxRow) : List (String × String × String) :=
  txs.foldl (fun acc tx =>
    let split := fun (l : List String) => l.foldl (fun s addr =>
      (splitPlus addr).foldl (fun s x => if x ∈ s then s else s ++ [x]) s) []
    let tx_ins := split (tx.tx_in ++ tx.dvm_in)
    let tx_outs := split (tx.tx_out ++ tx.dvm_out)
    acc ++ tx_outs.foldl (fun acc to_addr =>
      tx_ins.foldl (fun acc from_addr =>
        acc ++ [(from_addr, to_addr, tx.txid)]) acc) []) []

/-- The triple set with splitting exactly as the code does it: composite
splitting applies to the folded map keys only, DVM entries are inserted
unsplit.  Written for the amended claim. -/
def specTriplesAmended (txs : List GTxRow) : List (String × String × String) :=
  txs.foldl (fun acc tx =>
    let tx_ins := combine_addrs_with_multi_sig tx.tx_in tx.dvm_in
    let tx_outs := combine_addrs_with_multi_sig tx.tx_out tx.dvm_out
    acc ++ tx_outs.foldl (fun acc to_addr =>
      tx_ins.foldl (fun acc from_addr =>
        acc ++ [(from_addr, to_addr, tx.txid)]) acc) []) []

/-! ## Log parser (src/logparse.rs `process_log_file`)

The record structs (`LogIcxData`, `LogIcxCalcData`, `LogSwapData`,
`LogEntry`, `LogEntryMap`) are imported by src/logparse.rs from the
models module but their declarations are not among the provided sources;
they are modelled from the spec (§3 LogEntry, §4.2). -/

/-- Modelled from the spec: the `icx_data` sub-record
`{order_tx, offer_tx, dfchtlc_tx, claim_tx, address, amount}`, keyed on
`claim_tx` (declaration missing from the provided sources). -/
structure LogIcxData where
  order_tx : String
  offer_tx : String
  dfchtlc_tx : String
  claim_tx : String
  address : String
  amount : String
  deriving DecidableEq, Repr

/-- Modelled from the spec: the `icx_calc_data` sub-record, keyed on
`calc_tx` (declaration missing from the provided sources). -/
structure LogIcxCalcData where
  calc_tx : String
  deriving DecidableEq, Repr

/-- Modelled from the spec: the `swap_data` sub-record, keyed on `txid`
(declaration missing from the provided sources). -/
structure LogSwapData where
  txid : String
  deriving DecidableEq, Repr

/-- Modelled from the spec: a LogEntry holds up to three optional
sub-records (declaration missing from the provided sources). -/
structure LogEntry where
  icx_data : Option LogIcxData
  icx_calc_data : Option LogIcxCalcData
  swap_data : Option LogSwapData
  deriving DecidableEq, Repr

/-- `LogEntry::new`: all three sub-records absent. -/
def LogEntry.new : LogEntry :=
  { icx_data := none, icx_calc_data := none, swap_data := none }

/-- Modelled from the spec: the LogEntry map keyed by transaction id
plus the three counts (declaration missing from the provided sources). -/
structure LogEntryMap where
  data : List (String × LogEntry)
  icx_count : Nat
  icx_calc_count : Nat
  swap_count : Nat
  deriving DecidableEq, Repr

/-- `LogEntryMap::new`. -/
def LogEntryMap.new : LogEntryMap :=
  { data := [], icx_count := 0, icx_calc_count := 0, swap_count := 0 }

/-- `combined_data.data.entry(k).or_insert_with(LogEntry::new)` followed
by a field update `f` on the entry. -/
def updEntry (data : List (String × LogEntry)) (k : String)
    (f : LogEntry → LogEntry) : List (String × LogEntry) :=
  match data with
  | [] => [(k, f LogEntry.new)]
  | (a, e) :: t => if a = k then (a, f e) :: t else (a, e) :: updEntry t k f

/-- Whether `pat` is a prefix of `hay` (character lists). -/
def isPrefixCl : List Char → List Char → Bool
  | [], _ => true
  | _ :: _, [] => false
  | a :: t, b :: u => a = b && isPrefixCl t u

/-- Whether `pat` occurs as a contiguous substring of `hay`. -/
def containsSubCl (hay pat : List Char) : Bool :=
  isPrefixCl pat hay ||
    match hay with
    | [] => false
    | _ :: t => containsSubCl t pat

/-- Rust `str::contains(pat)`: `pat` occurs somewhere in `s`. -/
def strContains (s pat : String) : Bool := containsSubCl s.toList pat.toList

/-- `line.find('{').map(|start| &line[start..])`: the suffix of the line
starting at the first `{`, when any. -/
def jsonSuffix (line : String) : Option String :=
  if '{' ∈ line.toList then
    some (String.mk (line.toList.dropWhile (fun c => c ≠ '{')))
  else none

/-- `parse_json_line` (src/logparse.rs): take the suffix at the first
`{` and attempt a schema parse; a failure yields `None` (after a
warning).  The JSON codec itself (`serde_json::from_str`) is an external
collaborator and is abstracted as `p`. -/
def parse_json_line {T : Type} (p : String → Option T) (line : String) :
    Option T :=
  (jsonSuffix line).bind p

/-- The per-line body of `process_log_file` (src/logparse.rs lines
99–131): first matching tag wins; parse success merges into the entry
keyed by `claim_tx`, `calc_tx` or `txid`; parse failure or no tag leaves
the map unchanged. -/
def processLogLine (log_icx_matcher log_icx_calc_matcher log_swap_matcher :
    String) (pIcx : String → Option LogIcxData)
    (pCalc : String → Option LogIcxCalcData)
    (pSwap : String → Option LogSwapData)
    (m : LogEntryMap) (line : String) : LogEntryMap :=
  if strContains line log_icx_matcher then
    match parse_json_line pIcx line with
    | some data =>
      { m with
        data := updEntry m.data data.claim_tx
          (fun e => { e with icx_data := some data })
        icx_count := m.icx_count + 1 }
    | none => m
  else if strContains line log_icx_calc_matcher then
    match parse_json_line pCalc line with
    | some data =>
      { m with
        data := updEntry m.data data.calc_tx
          (fun e => { e with icx_calc_data := some data })
        icx_calc_count := m.icx_calc_count + 1 }
    | none => m
  else if strContains line log_swap_matcher then
    match parse_json_line pSwap line with
    | some data =>
      { m with
        data := updEntry m.data data.txid
          (fun e => { e with swap_data := some data })
        swap_count := m.swap_count + 1 }
    | none => m
  else m

/-- `process_log_file` over the sequence of lines of the input (file
I/O errors are infrastructure and not modelled): a pure left fold of the
per-line body — in particular it is total, never aborting on a parse
failure. -/
def process_log_file (log_icx_matcher log_icx_calc_matcher
    log_swap_matcher : String) (pIcx : String → Option LogIcxData)
    (pCalc : String → Option LogIcxCalcData)
    (pSwap : String → Option LogSwapData)
    (lines : List String) (m : LogEntryMap) : LogEntryMap :=
  lines.foldl
    (processLogLine log_icx_matcher log_icx_calc_matcher log_swap_matcher
      pIcx pCalc pSwap) m

/-! ## Graph queries: shortest path (src/spath.rs, src/gpath.rs) -/

/-- The successors of node `u` in the edge list. -/
def succs (edges : List (Nat × Nat × String)) (u : Nat) : List Nat :=
  edges.filterMap (fun e => if e.1 = u then some e.2.1 else none)

/-- Bool adjacency: an edge from `v` to `w` exists. -/
def adjB (edges : List (Nat × Nat × String)) (v w : Nat) : Bool :=
  edges.any (fun e => e.1 = v ∧ e.2.1 = w)

/-- The `k`-th BFS layer from `src`: nodes reachable by a walk of
exactly `k` edges (deduplicated). -/
def layerB (edges : List (Nat × Nat × String)) (src : Nat) : Nat → List Nat
  | 0 => [src]
  | k + 1 => ((layerB edges src k).flatMap (succs edges)).dedup

/-- A walk of exactly `k` edges from `u` to `w`. -/
inductive WalkLen (edges : List (Nat × Nat × String)) :
    Nat → Nat → Nat → Prop where
  | zero (u : Nat) : WalkLen edges 0 u u
  | succ {k u v w : Nat} : WalkLen edges k u v → adjB edges v w = true →
      WalkLen edges (k + 1) u w

/-- A node sequence is a chain: every consecutive pair is an edge. -/
def chainB (edges : List (Nat × Nat × String)) : List Nat → Bool
  | [] => true
  | [_] => true
  | a :: b :: t => adjB edges a b && chainB edges (b :: t)

/-- Reconstruct one walk of length `k` from `src` to `v` by picking, for
each step backwards, a predecessor in the previous BFS layer. -/
def buildPath (edges : List (Nat × Nat × String)) (src : Nat) :
    Nat → Nat → Option (List Nat)
  | 0, v => if v = src then some [src] else none
  | k + 1, v =>
    match (layerB edges src k).find? (fun u => adjB edges u v) with
    | none => none
    | some u => (buildPath edges src k u).map (fun p => p ++ [v])

/-- Modelled from the spec: `petgraph::algo::astar` with uniform edge
cost `1` and zero heuristic (an external crate, not among the provided
sources), which the spec describes as equivalent to unweighted BFS with
a termination predicate on the destination.  Returns `(cost, path)` with
the path from `src` to `dst` inclusive; `fuel` bounds the explored
depth. -/
def astarModel (edges : List (Nat × Nat × String)) (src dst : Nat)
    (fuel : Nat) : Option (Nat × List Nat) :=
  match (List.range (fuel + 1)).find?
      (fun k => decide (dst ∈ layerB edges src k)) with
  | none => none
  | some k => (buildPath edges src k dst).map (fun p => (k, p))

/-- The outcome the multi-pair runner logs for one `(src, dest)` pair. -/
inductive PairOutcome where
  | srcNotFound (s : String)
  | destNotFound (d : String)
  | noPath
  | found (cost : Nat) (path : List Nat)
  deriving DecidableEq, Repr

/-- The loop body of `path_find_astar_fixed_cost` (src/spath.rs lines
122–174) for one `(src, dest)` pair: a src or dest missing from
`node_index` logs a message and moves on; otherwise run the A*-as-BFS
search. -/
def spath_pair_outcome (st : GraphState) (fuel : Nat)
    (src dest : String) : PairOutcome :=
  match AL.lookup st.node_index src with
  | none => .srcNotFound src
  | some si =>
    match AL.lookup st.node_index dest with
    | none => .destNotFound dest
    | some di =>
      match astarModel st.edges si di fuel with
      | some (c, p) => .found c p
      | none => .noPath

/-- `path_find_astar_fixed_cost` (src/spath.rs lines 113–178): iterate
the `src × dest` cross product, collecting one outcome per pair.  The
interrupt flag and the per-hop sqlite lookups are not modelled. -/
def path_find_astar_fixed_cost (st : GraphState)
    (src_addrs dest_addrs : List String) (fuel : Nat) : List PairOutcome :=
  src_addrs.foldl (fun acc src =>
    dest_addrs.foldl (fun acc dest =>
      acc ++ [spath_pair_outcome st fuel src dest]) acc) []

/-- The single-pair finder `run` (src/gpath.rs lines 39–49): a src or
dest missing from `node_index` returns an error instead of continuing. -/
def gpathRun (st : GraphState) (src dest : String) (fuel : Nat) :
    Except String (Option (Nat × List Nat)) :=
  match AL.lookup st.node_index src with
  | none => .error ("src not found: " ++ src)
  | some si =>
    match AL.lookup st.node_index dest with
    | none => .error ("dest not found: " ++ dest)
    | some di => .ok (astarModel st.edges si di fuel)

/-! ## Walk (src/graphwalker.rs `run`, per-edge accumulation) -/

/-- One stored tx row as the walk reads it (`get_tx_data`). -/
structure TxRow where
  txid : String
  height : Int
  tx_type : String
  icx_addr : String
  icx_btc_exp_amt : String
  swap_from : String
  swap_to : String
  swap_amt : String
  deriving DecidableEq, Repr

/-- The per-edge accumulation match of the walk (src/graphwalker.rs
lines 170–200).  `parse` abstracts `bigdecimal::BigDecimal::from_str`
(an external crate), `add` its addition; `none` as result embeds the
`unwrap` panic in the `PoolSwap`/`"btc"` branch, while the
`ICXClaimDFCHTLC` branch logs a parse failure and keeps going with the
totals unchanged. -/
def walkEdgeAccum {A : Type} (parse : String → Option A) (add : A → A → A)
    (tx : TxRow) (total_btc_swaps total_icx : A) : Option (A × A) :=
  match TxType.from_display tx.tx_type with
  | .PoolSwap =>
    if tx.swap_from = "btc" then
      match parse tx.swap_amt with
      | some v => some (add total_btc_swaps v, total_icx)
      | none => none
    else some (total_btc_swaps, total_icx)
  | .ICXClaimDFCHTLC =>
    match parse tx.icx_btc_exp_amt with
    | some v => some (total_btc_swaps, add total_icx v)
    | none => some (total_btc_swaps, total_icx)
  | _ => some (total_btc_swaps, total_icx)

/-- The known (non-`Other`) `TxType` variants. -/
def knownTxTypes : List TxType :=
  [.Unknown, .Coinbase, .Utxo, .AutoAuth, .UtxosToAccount, .AccountToUtxos,
   .AccountToAccount, .AnyAccountsToAccounts, .CreateMasternode,
   .ResignMasternode, .PoolSwap, .CompositeSwap, .AddPoolLiquidity,
   .RemovePoolLiquidity, .WithdrawFromVault, .SetOracleData, .DepositToVault,
   .PaybackLoan, .TakeLoan, .Vault, .ICXCreateOrder, .ICXMakeOffer,
   .ICXSubmitDFCHTLC, .ICXSubmitEXTHTLC, .ICXClaimDFCHTLC, .ICXCloseOrder,
   .ICXCloseOffer]

/-- The long-form names recognized by `impl From<&str> for TxType`
(the non-fallback match arms of src/models.rs). -/
def knownLongForms : List String :=
  ["_", "cb", "utxo", "CreateMasternode", "ResignMasternode", "PoolSwap",
   "CompositeSwap", "AddPoolLiquidity", "RemovePoolLiquidity",
   "UtxosToAccount", "AccountToUtxos", "AccountToAccount",
   "WithdrawFromVault", "SetOracleData", "DepositToVault", "PaybackLoan",
   "TakeLoan", "AutoAuth", "Vault", "AnyAccountsToAccounts",
   "ICXCreateOrder", "ICXMakeOffer", "ICXSubmitDFCHTLC", "ICXSubmitEXTHTLC",
   "ICXClaimDFCHTLC", "ICXCloseOrder", "ICXCloseOffer"]

end Indexer

/-- C4: for every known (non-Other) variant `t`,
`TxType.from_display (t.toStr) = t`; for every known long-form name `s`,
the long-form-to-enum map composed with the enum-to-short-code map
round-trips; and distinct known variants have distinct short codes. -/
theorem c4_txtype_codec_bijective :
    (∀ t ∈ Indexer.knownTxTypes, Indexer.TxType.from_display t.toStr = t) ∧
    (∀ s ∈ Indexer.knownLongForms,
      Indexer.TxType.from_display (Indexer.TxType.fromStr s).toStr =
        Indexer.TxType.fromStr s) ∧
    (Indexer.knownTxTypes.map Indexer.TxType.toStr).Nodup := by
  refine ⟨?_, ?_, ?_⟩ <;> decide

open Indexer in
/-- `AL.lookup` after `AL.insert`: the inserted binding wins, others are
untouched. -/
theorem lookup_insert_eq {K V : Type} [DecidableEq K]
    (m : List (K × V)) (k k' : K) (v : V) :
    AL.lookup (AL.insert m k v) k' =
      if k = k' then some v else AL.lookup m k' := by
  induction m with
  | nil => simp [AL.insert, AL.lookup]
  | cons p t ih =>
    obtain ⟨a, b⟩ := p
    by_cases hak : a = k
    · subst hak
      by_cases hk : a = k' <;> simp [AL.insert, AL.lookup, hk]
    · by_cases hk : k = k'
      · subst hk
        simp [AL.insert, AL.lookup, hak, ih]
      · have hk'k : ¬k' = k := fun h => hk h.symm
        by_cases hak' : a = k' <;>
          simp [AL.insert, AL.lookup, hak, hak', ih, hk, hk'k]

open Indexer in
/-- `AL.lookup` after `AL.addOrInsert`: combine with an existing
binding, insert otherwise, others untouched. -/
theorem lookup_addOrInsert_eq {K V : Type} [DecidableEq K]
    (add : V → V → V) (m : List (K × V)) (k k' : K) (v : V) :
    AL.lookup (AL.addOrInsert add m k v) k' =
      if k = k' then
        (match AL.lookup m k with
          | some b => some (add b v)
          | none => some v)
      else AL.lookup m k' := by
  induction m with
  | nil => simp [AL.addOrInsert, AL.lookup]
  | cons p t ih =>
    obtain ⟨a, b⟩ := p
    by_cases hak : a = k
    · subst hak
      by_cases hk : a = k' <;> simp [AL.addOrInsert, AL.lookup, hk]
    · by_cases hk : k = k'
      · subst hk
        simp [AL.addOrInsert, AL.lookup, hak, ih, Ne.symm hak]
      · have hk'k : ¬k' = k := fun h => hk h.symm
        by_cases hak' : a = k' <;>
          simp [AL.addOrInsert, AL.lookup, hak, hak', ih, hk, hk'k]

open Indexer in
/-- Invariant of the `fold_addr_val_map` fold: a lookup in the folded
map continues the accumulator's binding with the matching values of the
remaining list, in order. -/
theorem fold_addr_val_go {V : Type} (add : V → V → V)
    (l : List (String × V)) (m : List (String × V)) (k : String) :
    AL.lookup (l.foldl (fun m v => AL.addOrInsert add m v.1 v.2) m) k =
      accValues add (AL.lookup m k)
        ((l.filter (fun p => p.1 = k)).map Prod.snd) := by
  induction l generalizing m with
  | nil =>
    cases h : AL.lookup m k <;> simp [accValues, sumInOrder, h]
  | cons p t ih =>
    obtain ⟨a, v⟩ := p
    rw [List.foldl_cons, ih]
    rw [lookup_addOrInsert_eq]
    by_cases hak : a = k
    · subst hak
      cases h : AL.lookup m a <;>
        simp [h, accValues, sumInOrder, List.foldl_cons]
    · simp [hak]

open Indexer in
/-- C6: for every `[(addr, val)]` list, `fold_addr_val_map` produces a
map whose key set is exactly the set of addresses occurring in the list
and whose value for each key `k` is the sum, accumulated in list order,
of the values of the entries with address `k`. -/
theorem c6_fold_addr_val_map_correct {V : Type} (add : V → V → V)
    (l : List (String × V)) (k : String) :
    AL.lookup (fold_addr_val_map add l) k =
      sumInOrder add ((l.filter (fun p => p.1 = k)).map Prod.snd) ∧
    ((AL.lookup (fold_addr_val_map add l) k).isSome ↔
      k ∈ l.map Prod.fst) := by
  have h := fold_addr_val_go add l [] k
  simp only [AL.lookup, accValues] at h
  unfold fold_addr_val_map
  refine ⟨h, ?_⟩
  rw [h]
  constructor
  · intro hs
    cases hfil : (l.filter (fun p => p.1 = k)).map Prod.snd with
    | nil => rw [hfil] at hs; simp [sumInOrder] at hs
    | cons v vs =>
      have : l.filter (fun p => p.1 = k) ≠ [] := by
        intro hnil
        rw [hnil] at hfil
        exact List.cons_ne_nil v vs hfil.symm
      obtain ⟨p, hp⟩ := List.exists_mem_of_ne_nil _ this
      have hpl : p ∈ l := List.mem_of_mem_filter hp
      have hpk : p.1 = k := by
        have := List.of_mem_filter hp
        simpa using this
      exact hpk ▸ List.mem_map_of_mem Prod.fst hpl
  · intro hk
    obtain ⟨p, hpl, hpk⟩ := List.mem_map.mp hk
    have hpf : p ∈ l.filter (fun p => p.1 = k) :=
      List.mem_filter.mpr ⟨hpl, by simp [hpk]⟩
    cases hfil : (l.filter (fun p => p.1 = k)).map Prod.snd with
    | nil =>
      rw [List.map_eq_nil_iff] at hfil
      rw [hfil] at hpf
      simp at hpf
    | cons v vs => simp [sumInOrder]

open Indexer in
/-- A collected iterator of fallible items succeeds exactly when every
item succeeds. -/
theorem collectE_isOk_iff {α β ε : Type} (l : List α) (f : α → Except ε β) :
    (collectE l f).isOk = true ↔ ∀ a ∈ l, (f a).isOk = true := by
  induction l with
  | nil => simp [collectE, Except.isOk, Except.toBool]
  | cons a t ih =>
    cases hfa : f a with
    | error e =>
      have hred : collectE (a :: t) f = Except.error e := by
        simp [collectE, hfa]
      constructor
      · intro h
        rw [hred] at h
        simp [Except.isOk, Except.toBool] at h
      · intro hall
        exfalso
        have := hall a (List.mem_cons_self a t)
        rw [hfa] at this
        simp [Except.isOk, Except.toBool] at this
    | ok b =>
      cases hct : collectE t f with
      | error e =>
        have hred : collectE (a :: t) f = Except.error e := by
          simp [collectE, hfa, hct]
        constructor
        · intro h
          rw [hred] at h
          simp [Except.isOk, Except.toBool] at h
        · intro hall
          exfalso
          have hok : (collectE t f).isOk = true :=
            ih.mpr (fun x hx => hall x (List.mem_cons_of_mem a hx))
          rw [hct] at hok
          simp [Except.isOk, Except.toBool] at hok
      | ok bs =>
        have hred : collectE (a :: t) f = Except.ok (b :: bs) := by
          simp [collectE, hfa, hct]
        constructor
        · intro _ x hx
          rcases List.mem_cons.mp hx with h1 | h2
          · rw [h1, hfa]; rfl
          · exact ih.mp (by rw [hct]; rfl) x h2
        · intro _
          rw [hred]
          rfl

open Indexer in
/-- Per-vin resolution fails exactly on a missing prior tx, a missing
vout index, or an absent address list. -/
theorem txinMapFn_fails_iff {V : Type}
    (store : String → Option (Transaction V)) (x : VinStandard) :
    (txinMapFn store x).isOk = false ↔
      store x.txid = none ∨
      (∃ tx, store x.txid = some tx ∧
        tx.vout.find? (fun v => v.n == x.vout) = none) ∨
      (∃ tx utxo, store x.txid = some tx ∧
        tx.vout.find? (fun v => v.n == x.vout) = some utxo ∧
        utxo.script_pub_key.addresses = none) := by
  constructor
  · intro h
    cases hst : store x.txid with
    | none => exact Or.inl rfl
    | some tx =>
      cases hfd : tx.vout.find? (fun v => v.n == x.vout) with
      | none => exact Or.inr (Or.inl ⟨tx, rfl, hfd⟩)
      | some utxo =>
        cases had : utxo.script_pub_key.addresses with
        | none => exact Or.inr (Or.inr ⟨tx, utxo, rfl, hfd, had⟩)
        | some addrs =>
          exfalso
          have hok : (txinMapFn store x).isOk = true := by
            cases addrs with
            | nil =>
              simp [txinMapFn, hst, hfd, had, Except.isOk, Except.toBool]
            | cons a rest =>
              cases rest with
              | nil =>
                simp [txinMapFn, hst, hfd, had, Except.isOk, Except.toBool]
              | cons b rest' =>
                simp [txinMapFn, hst, hfd, had, Except.isOk, Except.toBool]
          rw [h] at hok
          exact absurd hok (by simp)
  · rintro (hst | ⟨tx, hst, hfd⟩ | ⟨tx, utxo, hst, hfd, had⟩)
    · simp [txinMapFn, hst, Except.isOk, Except.toBool]
    · simp [txinMapFn, hst, hfd, Except.isOk, Except.toBool]
    · simp [txinMapFn, hst, hfd, had, Except.isOk, Except.toBool]

open Indexer in
/-- C5: input resolution errs exactly when some standard vin references
a txid absent from the store, a vout index absent from the referenced
transaction, or a vout with no address list; coinbase vins are filtered
out without effect; a vout with more than one address resolves
successfully to the `+`-joined composite. -/
theorem c5_txin_resolution {V : Type}
    (store : String → Option (Transaction V)) (vins : List Vin) :
    ((get_txin_addr_val_list store vins).isOk = false ↔
      ∃ x ∈ vins.filterMap Vin.assume_standard,
        store x.txid = none ∨
        (∃ tx, store x.txid = some tx ∧
          tx.vout.find? (fun v => v.n == x.vout) = none) ∨
        (∃ tx utxo, store x.txid = some tx ∧
          tx.vout.find? (fun v => v.n == x.vout) = some utxo ∧
          utxo.script_pub_key.addresses = none)) ∧
    (∀ c, get_txin_addr_val_list store (Vin.coinbase c :: vins) =
      get_txin_addr_val_list store vins) ∧
    (∀ x tx utxo addrs, store x.txid = some tx →
      tx.vout.find? (fun v => v.n == x.vout) = some utxo →
      utxo.script_pub_key.addresses = some addrs → 1 < addrs.length →
      get_txin_addr_val_list store [Vin.standard x] =
        .ok [(String.intercalate "+" addrs, utxo.value)]) := by
  refine ⟨?_, ?_, ?_⟩
  · constructor
    · intro h
      by_contra hno
      push_neg at hno
      have hall : ∀ a ∈ vins.filterMap Vin.assume_standard,
          (txinMapFn store a).isOk = true := by
        intro a ha
        have := hno a ha
        have hiff := txinMapFn_fails_iff store a
        rcases hok : (txinMapFn store a).isOk with _ | _
        · exact absurd (hiff.mp hok) (by tauto)
        · rfl
      have := (collectE_isOk_iff _ (txinMapFn store)).mpr hall
      rw [get_txin_addr_val_list] at h
      rw [this] at h
      exact absurd h (by simp)
    · rintro ⟨x, hx, hbad⟩
      have hfail : (txinMapFn store x).isOk = false :=
        (txinMapFn_fails_iff store x).mpr hbad
      rcases hok : (get_txin_addr_val_list store vins).isOk with _ | _
      · rfl
      · rw [get_txin_addr_val_list] at hok
        have := (collectE_isOk_iff _ (txinMapFn store)).mp hok x hx
        rw [hfail] at this
        exact absurd this (by simp)
  · intro c
    simp [get_txin_addr_val_list, List.filterMap_cons, Vin.assume_standard]
  · intro x tx utxo addrs hst hfd had hlen
    have hmap : txinMapFn store x =
        .ok (String.intercalate "+" addrs, utxo.value) := by
      cases addrs with
      | nil => simp at hlen
      | cons a rest =>
        cases rest with
        | nil => simp at hlen
        | cons b rest' => simp [txinMapFn, hst, hfd, had]
    simp [get_txin_addr_val_list, List.filterMap_cons, Vin.assume_standard,
      collectE, hmap]

open Indexer in
/-- Witness for C5 at a concrete store: one prior transaction `t0` whose
vout `0` carries the two addresses `A`, `B`; the standard vin spending
it resolves to the composite `A+B`, a coinbase vin is dropped, and a vin
referencing the unknown txid `zz` makes the resolution fail. -/
theorem c5_txin_resolution_witness :
    (get_txin_addr_val_list
        (fun s => if s = "t0" then
          some { txid := "t0", vin := [], vm := none,
                 vout := [{ value := (5 : Int), n := 0,
                            script_pub_key :=
                              { type := "multisig",
                                addresses := some ["A", "B"] } }] }
          else none)
        [Vin.standard { txid := "t0", vout := 0 }] =
      .ok [("A+B", (5 : Int))]) ∧
    ((get_txin_addr_val_list
        (fun s => if s = "t0" then
          some { txid := "t0", vin := [], vm := none,
                 vout := [{ value := (5 : Int), n := 0,
                            script_pub_key :=
                              { type := "multisig",
                                addresses := some ["A", "B"] } }] }
          else none)
        [Vin.standard { txid := "zz", vout := 0 }]).isOk = false) := by
  constructor
  · have h := (c5_txin_resolution
      (fun s => if s = "t0" then
        some { txid := "t0", vin := [], vm := none,
               vout := [{ value := (5 : Int), n := 0,
                          script_pub_key :=
                            { type := "multisig",
                              addresses := some ["A", "B"] } }] }
        else none)
      ([] : List Vin)).2.2
      { txid := "t0", vout := 0 }
      { txid := "t0", vin := [], vm := none,
        vout := [{ value := (5 : Int), n := 0,
                   script_pub_key :=
                     { type := "multisig",
                       addresses := some ["A", "B"] } }] }
      { value := (5 : Int), n := 0,
        script_pub_key := { type := "multisig",
                            addresses := some ["A", "B"] } }
      ["A", "B"] (by decide) (by decide) (by decide) (by decide)
    simpa using h
  · apply (c5_txin_resolution
      (fun s => if s = "t0" then
        some { txid := "t0", vin := [], vm := none,
               vout := [{ value := (5 : Int), n := 0,
                          script_pub_key :=
                            { type := "multisig",
                              addresses := some ["A", "B"] } }] }
        else none)
      [Vin.standard { txid := "zz", vout := 0 }]).1.mpr
    exact ⟨{ txid := "zz", vout := 0 }, by decide, Or.inl (by decide)⟩

open Indexer in
/-- Key membership after `AL.insert`. -/
theorem mem_keys_insert {K V : Type} [DecidableEq K]
    (m : List (K × V)) (k x : K) (v : V) :
    x ∈ (AL.insert m k v).map Prod.fst ↔ x = k ∨ x ∈ m.map Prod.fst := by
  induction m with
  | nil => simp [AL.insert]
  | cons p t ih =>
    obtain ⟨a, b⟩ := p
    by_cases hak : a = k
    · subst hak
      simp [AL.insert]
    · simp only [AL.insert, if_neg hak, List.map_cons, List.mem_cons, ih]
      tauto

open Indexer in
/-- `AL.insert` keeps association-list keys duplicate-free. -/
theorem keys_nodup_insert {K V : Type} [DecidableEq K]
    (m : List (K × V)) (k : K) (v : V)
    (h : (m.map Prod.fst).Nodup) : ((AL.insert m k v).map Prod.fst).Nodup := by
  induction m with
  | nil => simp [AL.insert]
  | cons p t ih =>
    obtain ⟨a, b⟩ := p
    simp only [List.map_cons, List.nodup_cons] at h
    by_cases hak : a = k
    · subst hak
      simpa [AL.insert, List.nodup_cons] using h
    · simp only [AL.insert, if_neg hak, List.map_cons, List.nodup_cons]
      refine ⟨?_, ih h.2⟩
      rw [mem_keys_insert]
      rintro (h1 | h2)
      · exact hak h1
      · exact h.1 h2

open Indexer in
/-- A lookup succeeds exactly when the key occurs among the keys. -/
theorem lookup_isSome_iff_mem_keys {K V : Type} [DecidableEq K]
    (m : List (K × V)) (k : K) :
    (AL.lookup m k).isSome = true ↔ k ∈ m.map Prod.fst := by
  induction m with
  | nil => simp [AL.lookup]
  | cons p t ih =>
    obtain ⟨a, b⟩ := p
    by_cases hak : a = k
    · subst hak
      simp [AL.lookup]
    · have hka : ¬k = a := fun h => hak h.symm
      simp [AL.lookup, hak, hka, ih]

open Indexer in
/-- Folding constant-value inserts over a key list: every visited key
maps to the constant, others are untouched. -/
theorem lookup_foldl_insert_const {K V : Type} [DecidableEq K]
    (ks : List K) (c : V) (m : List (K × V)) (p : K) :
    AL.lookup (ks.foldl (fun m k => AL.insert m k c) m) p =
      if p ∈ ks then some c else AL.lookup m p := by
  induction ks generalizing m with
  | nil => simp
  | cons k t ih =>
    rw [List.foldl_cons, ih]
    by_cases hpt : p ∈ t
    · simp [hpt]
    · by_cases hkp : k = p
      · subst hkp
        simp [hpt, lookup_insert_eq]
      · have hpk : ¬p = k := fun h => hkp h.symm
        simp [hpt, hpk, lookup_insert_eq, hkp]

open Indexer in
/-- `dvmUpd` is idempotent: re-visiting a pair in the DVM loop leaves
its flag unchanged. -/
theorem dvmUpd_idem (x : Option Int) : dvmUpd (dvmUpd x) = dvmUpd x := by
  cases x with
  | none => rfl
  | some v =>
    by_cases hv : v = 0 <;> simp [dvmUpd, hv]

open Indexer in
/-- One `dvmStep` visit changes only the visited pair, by `dvmUpd`. -/
theorem lookup_dvmStep (m : List ((String × String) × Int))
    (k p : String × String) :
    AL.lookup (dvmStep m k) p =
      if k = p then dvmUpd (AL.lookup m p) else AL.lookup m p := by
  by_cases hkp : k = p
  · subst hkp
    cases hmk : AL.lookup m k with
    | none => simp [dvmStep, hmk, lookup_insert_eq, dvmUpd]
    | some v =>
      by_cases hv : v = 0
      · subst hv
        simp [dvmStep, hmk, lookup_insert_eq, dvmUpd]
      · simp [dvmStep, hmk, lookup_insert_eq, dvmUpd, hv]
  · cases hmk : AL.lookup m k with
    | none => simp [dvmStep, hmk, lookup_insert_eq, hkp]
    | some v =>
      by_cases hv : v = 0
      · subst hv
        simp [dvmStep, hmk, lookup_insert_eq, hkp]
      · simp [dvmStep, hmk, hv, hkp]

open Indexer in
/-- Folding `dvmStep` over a pair list: every visited pair's flag goes
through `dvmUpd` (idempotently), others are untouched. -/
theorem lookup_foldl_dvmStep (ks : List (String × String))
    (m : List ((String × String) × Int)) (p : String × String) :
    AL.lookup (ks.foldl dvmStep m) p =
      if p ∈ ks then dvmUpd (AL.lookup m p) else AL.lookup m p := by
  induction ks generalizing m with
  | nil => simp
  | cons k t ih =>
    rw [List.foldl_cons, ih, lookup_dvmStep]
    by_cases hpt : p ∈ t
    · by_cases hkp : k = p
      · subst hkp
        simp [hpt, dvmUpd_idem]
      · simp [hpt, hkp]
    · by_cases hkp : k = p
      · subst hkp
        simp [hpt]
      · have hpk : ¬p = k := fun h => hkp h.symm
        simp [hpt, hkp, hpk]

open Indexer in
/-- `dvmStep` keeps keys duplicate-free. -/
theorem keys_nodup_dvmStep (m : List ((String × String) × Int))
    (k : String × String) (h : (m.map Prod.fst).Nodup) :
    ((dvmStep m k).map Prod.fst).Nodup := by
  unfold dvmStep
  cases AL.lookup m k with
  | none => exact keys_nodup_insert m k 1 h
  | some v =>
    by_cases hv : v = 0
    · simpa [hv] using keys_nodup_insert m k 2 h
    · simpa [hv] using h

open Indexer in
/-- Nested classifier phase-1 loops flattened to a single fold over the
`(in, out)` key pairs. -/
theorem phase1_flat {V : Type} (tx_in_addrs tx_out : List (String × V))
    (m0 : List ((String × String) × Int)) :
    tx_out.foldl (fun m out =>
        tx_in_addrs.foldl (fun m in_ => AL.insert m (in_.1, out.1) 0) m) m0 =
      (tx_out.flatMap (fun out =>
          tx_in_addrs.map (fun i => (i.1, out.1)))).foldl
        (fun m k => AL.insert m k 0) m0 := by
  induction tx_out generalizing m0 with
  | nil => rfl
  | cons o t ih =>
    rw [List.foldl_cons, List.flatMap_cons, List.foldl_append, List.foldl_map,
      ih]

open Indexer in
/-- Nested classifier phase-2 loops flattened to a single `dvmStep` fold
over the `(in, out)` pairs of `dvm_in × dvm_addrs`. -/
theorem phase2_flat (dvmIn outs : List String)
    (m0 : List ((String × String) × Int)) :
    outs.foldl (fun m out_addr =>
        dvmIn.foldl (fun m in_addr => dvmStep m (in_addr, out_addr)) m) m0 =
      (outs.flatMap (fun out_addr =>
          dvmIn.map (fun in_addr => (in_addr, out_addr)))).foldl dvmStep m0 := by
  induction outs generalizing m0 with
  | nil => rfl
  | cons o t ih =>
    rw [List.foldl_cons, List.flatMap_cons, List.foldl_append, List.foldl_map,
      ih]

open Indexer in
/-- Constant-value insert folds keep keys duplicate-free. -/
theorem keys_nodup_foldl_insert {K V : Type} [DecidableEq K]
    (ks : List K) (c : V) (m : List (K × V))
    (h : (m.map Prod.fst).Nodup) :
    ((ks.foldl (fun m k => AL.insert m k c) m).map Prod.fst).Nodup := by
  induction ks generalizing m with
  | nil => exact h
  | cons k t ih =>
    rw [List.foldl_cons]
    exact ih _ (keys_nodup_insert m k c h)

open Indexer in
/-- `dvmStep` folds keep keys duplicate-free. -/
theorem keys_nodup_foldl_dvmStep (ks : List (String × String))
    (m : List ((String × String) × Int))
    (h : (m.map Prod.fst).Nodup) :
    ((ks.foldl dvmStep m).map Prod.fst).Nodup := by
  induction ks generalizing m with
  | nil => exact h
  | cons k t ih =>
    rw [List.foldl_cons]
    exact ih _ (keys_nodup_dvmStep m k h)

open Indexer in
/-- C1: in the per-tx edge changeset, with
`P = tx_in keys × tx_out keys` and `D = dvm_in × dvm_addrs`, a pair maps
to flag `0` iff it is in `P` only, to `1` iff it is in `D` only, to `2`
iff it is in both, and exactly one row is emitted per pair of `P ∪ D`
(the changeset keys are duplicate-free and range over `P ∪ D`). -/
theorem c1_changeset_cflags {V : Type}
    (tx_in_addrs tx_out : List (String × V)) (dvm_addrs : List String)
    (i o : String) :
    (AL.lookup (edge_changeset tx_in_addrs tx_out dvm_addrs) (i, o) =
        some 0 ↔
      (i ∈ tx_in_addrs.map Prod.fst ∧ o ∈ tx_out.map Prod.fst) ∧
      ¬(i ∈ dvm_in_addrs tx_in_addrs dvm_addrs ∧ o ∈ dvm_addrs)) ∧
    (AL.lookup (edge_changeset tx_in_addrs tx_out dvm_addrs) (i, o) =
        some 1 ↔
      (i ∈ dvm_in_addrs tx_in_addrs dvm_addrs ∧ o ∈ dvm_addrs) ∧
      ¬(i ∈ tx_in_addrs.map Prod.fst ∧ o ∈ tx_out.map Prod.fst)) ∧
    (AL.lookup (edge_changeset tx_in_addrs tx_out dvm_addrs) (i, o) =
        some 2 ↔
      (i ∈ tx_in_addrs.map Prod.fst ∧ o ∈ tx_out.map Prod.fst) ∧
      (i ∈ dvm_in_addrs tx_in_addrs dvm_addrs ∧ o ∈ dvm_addrs)) ∧
    ((i, o) ∈ (edge_changeset tx_in_addrs tx_out dvm_addrs).map Prod.fst ↔
      (i ∈ tx_in_addrs.map Prod.fst ∧ o ∈ tx_out.map Prod.fst) ∨
      (i ∈ dvm_in_addrs tx_in_addrs dvm_addrs ∧ o ∈ dvm_addrs)) ∧
    ((edge_changeset tx_in_addrs tx_out dvm_addrs).map Prod.fst).Nodup := by
  have hcs : edge_changeset tx_in_addrs tx_out dvm_addrs =
      (dvm_addrs.flatMap (fun o =>
          (dvm_in_addrs tx_in_addrs dvm_addrs).map (fun i => (i, o)))).foldl
        dvmStep
        ((tx_out.flatMap (fun out =>
            tx_in_addrs.map (fun i => (i.1, out.1)))).foldl
          (fun m k => AL.insert m k 0) []) := by
    unfold edge_changeset
    rw [phase1_flat, phase2_flat]
  have hmem1 : ((i, o) ∈ tx_out.flatMap (fun out =>
      tx_in_addrs.map (fun i => (i.1, out.1)))) ↔
      (i ∈ tx_in_addrs.map Prod.fst ∧ o ∈ tx_out.map Prod.fst) := by
    constructor
    · intro hm
      obtain ⟨out, hout, hmm⟩ := List.mem_flatMap.mp hm
      obtain ⟨x, hx, hxe⟩ := List.mem_map.mp hmm
      obtain ⟨h1, h2⟩ := Prod.mk.injEq _ _ _ _ ▸ hxe
      constructor
      · exact h1 ▸ List.mem_map_of_mem Prod.fst hx
      · exact h2 ▸ List.mem_map_of_mem Prod.fst hout
    · rintro ⟨hi, ho⟩
      obtain ⟨x, hx, hxe⟩ := List.mem_map.mp hi
      obtain ⟨out, hout, houte⟩ := List.mem_map.mp ho
      refine List.mem_flatMap.mpr ⟨out, hout, List.mem_map.mpr ⟨x, hx, ?_⟩⟩
      rw [hxe, houte]
  have hmem2 : ((i, o) ∈ dvm_addrs.flatMap (fun o =>
      (dvm_in_addrs tx_in_addrs dvm_addrs).map (fun i => (i, o)))) ↔
      (i ∈ dvm_in_addrs tx_in_addrs dvm_addrs ∧ o ∈ dvm_addrs) := by
    constructor
    · intro hm
      obtain ⟨o', ho', hmm⟩ := List.mem_flatMap.mp hm
      obtain ⟨i', hi', hie⟩ := List.mem_map.mp hmm
      obtain ⟨h1, h2⟩ := Prod.mk.injEq _ _ _ _ ▸ hie
      exact ⟨h1 ▸ hi', h2 ▸ ho'⟩
    · rintro ⟨hi, ho⟩
      exact List.mem_flatMap.mpr ⟨o, ho, List.mem_map.mpr ⟨i, hi, rfl⟩⟩
  have hval : AL.lookup (edge_changeset tx_in_addrs tx_out dvm_addrs)
      (i, o) =
      if (i ∈ dvm_in_addrs tx_in_addrs dvm_addrs ∧ o ∈ dvm_addrs) then
        dvmUpd (if (i ∈ tx_in_addrs.map Prod.fst ∧
            o ∈ tx_out.map Prod.fst) then some 0 else none)
      else
        (if (i ∈ tx_in_addrs.map Prod.fst ∧
            o ∈ tx_out.map Prod.fst) then some 0 else none) := by
    rw [hcs, lookup_foldl_dvmStep, lookup_foldl_insert_const]
    simp only [AL.lookup, hmem1, hmem2]
  have hnodup :
      ((edge_changeset tx_in_addrs tx_out dvm_addrs).map Prod.fst).Nodup := by
    rw [hcs]
    exact keys_nodup_foldl_dvmStep _ _
      (keys_nodup_foldl_insert _ _ [] (by simp))
  have hmemkeys : ((i, o) ∈
      (edge_changeset tx_in_addrs tx_out dvm_addrs).map Prod.fst ↔
      (i ∈ tx_in_addrs.map Prod.fst ∧ o ∈ tx_out.map Prod.fst) ∨
      (i ∈ dvm_in_addrs tx_in_addrs dvm_addrs ∧ o ∈ dvm_addrs)) := by
    rw [← lookup_isSome_iff_mem_keys, hval]
    by_cases hD : (i ∈ dvm_in_addrs tx_in_addrs dvm_addrs ∧ o ∈ dvm_addrs)
    · rw [if_pos hD]
      by_cases hP : (i ∈ tx_in_addrs.map Prod.fst ∧ o ∈ tx_out.map Prod.fst)
      · rw [if_pos hP]
        exact iff_of_true (by decide) (Or.inl hP)
      · rw [if_neg hP]
        exact iff_of_true (by decide) (Or.inr hD)
    · rw [if_neg hD]
      by_cases hP : (i ∈ tx_in_addrs.map Prod.fst ∧ o ∈ tx_out.map Prod.fst)
      · rw [if_pos hP]
        exact iff_of_true (by decide) (Or.inl hP)
      · rw [if_neg hP]
        exact iff_of_false (by decide) (fun h => h.elim hP hD)
  refine ⟨?_, ?_, ?_, hmemkeys, hnodup⟩
  · rw [hval]
    by_cases hD : (i ∈ dvm_in_addrs tx_in_addrs dvm_addrs ∧ o ∈ dvm_addrs)
    · rw [if_pos hD]
      by_cases hP : (i ∈ tx_in_addrs.map Prod.fst ∧ o ∈ tx_out.map Prod.fst)
      · rw [if_pos hP]
        exact iff_of_false (by decide) (fun h => h.2 hD)
      · rw [if_neg hP]
        exact iff_of_false (by decide) (fun h => hP h.1)
    · rw [if_neg hD]
      by_cases hP : (i ∈ tx_in_addrs.map Prod.fst ∧ o ∈ tx_out.map Prod.fst)
      · rw [if_pos hP]
        exact iff_of_true rfl ⟨hP, hD⟩
      · rw [if_neg hP]
        exact iff_of_false (by decide) (fun h => hP h.1)
  · rw [hval]
    by_cases hD : (i ∈ dvm_in_addrs tx_in_addrs dvm_addrs ∧ o ∈ dvm_addrs)
    · rw [if_pos hD]
      by_cases hP : (i ∈ tx_in_addrs.map Prod.fst ∧ o ∈ tx_out.map Prod.fst)
      · rw [if_pos hP]
        exact iff_of_false (by decide) (fun h => h.2 hP)
      · rw [if_neg hP]
        exact iff_of_true rfl ⟨hD, hP⟩
    · rw [if_neg hD]
      by_cases hP : (i ∈ tx_in_addrs.map Prod.fst ∧ o ∈ tx_out.map Prod.fst)
      · rw [if_pos hP]
        exact iff_of_false (by decide) (fun h => hD h.1)
      · rw [if_neg hP]
        exact iff_of_false (by decide) (fun h => hD h.1)
  · rw [hval]
    by_cases hD : (i ∈ dvm_in_addrs tx_in_addrs dvm_addrs ∧ o ∈ dvm_addrs)
    · rw [if_pos hD]
      by_cases hP : (i ∈ tx_in_addrs.map Prod.fst ∧ o ∈ tx_out.map Prod.fst)
      · rw [if_pos hP]
        exact iff_of_true rfl ⟨hP, hD⟩
      · rw [if_neg hP]
        exact iff_of_false (by decide) (fun h => hP h.1)
    · rw [if_neg hD]
      by_cases hP : (i ∈ tx_in_addrs.map Prod.fst ∧ o ∈ tx_out.map Prod.fst)
      · rw [if_pos hP]
        exact iff_of_false (by decide) (fun h => hD h.2)
      · rw [if_neg hP]
        exact iff_of_false (by decide) (fun h => hP h.1)

open Indexer in
/-- `AL.lookup` after `updEntry`: the updated entry (starting from
`LogEntry.new` when absent) wins, others are untouched. -/
theorem lookup_updEntry (data : List (String × LogEntry)) (k k' : String)
    (f : LogEntry → LogEntry) :
    AL.lookup (updEntry data k f) k' =
      if k = k' then some (f ((AL.lookup data k).getD LogEntry.new))
      else AL.lookup data k' := by
  induction data with
  | nil => by_cases hk : k = k' <;> simp [updEntry, AL.lookup, hk]
  | cons p t ih =>
    obtain ⟨a, e⟩ := p
    by_cases hak : a = k
    · subst hak
      by_cases hk : a = k' <;> simp [updEntry, AL.lookup, hk]
    · by_cases hk : k = k'
      · subst hk
        simp [updEntry, AL.lookup, hak, ih, Ne.symm hak]
      · have hk'k : ¬k' = k := fun h => hk h.symm
        by_cases hak' : a = k' <;>
          simp [updEntry, AL.lookup, hak, hak', ih, hk, hk'k]

open Indexer in
/-- C7: the log-file processor (a pure fold, hence never aborting) skips
a tagged line whose JSON suffix fails to parse and continues with the
remaining lines; a successfully parsed record is merged into the map
entry keyed by `claim_tx`, `calc_tx` or `txid` respectively, and a later
record for the same key and kind overwrites whatever processing the
earlier lines did. -/
theorem c7_process_log_file (mIcx mCalc mSwap : String)
    (pIcx : String → Option LogIcxData)
    (pCalc : String → Option LogIcxCalcData)
    (pSwap : String → Option LogSwapData) :
    (∀ line lines m, strContains line mIcx = true →
      parse_json_line pIcx line = none →
      process_log_file mIcx mCalc mSwap pIcx pCalc pSwap (line :: lines) m =
        process_log_file mIcx mCalc mSwap pIcx pCalc pSwap lines m) ∧
    (∀ line lines m, strContains line mIcx = false →
      strContains line mCalc = true →
      parse_json_line pCalc line = none →
      process_log_file mIcx mCalc mSwap pIcx pCalc pSwap (line :: lines) m =
        process_log_file mIcx mCalc mSwap pIcx pCalc pSwap lines m) ∧
    (∀ line lines m, strContains line mIcx = false →
      strContains line mCalc = false →
      strContains line mSwap = true →
      parse_json_line pSwap line = none →
      process_log_file mIcx mCalc mSwap pIcx pCalc pSwap (line :: lines) m =
        process_log_file mIcx mCalc mSwap pIcx pCalc pSwap lines m) ∧
    (∀ ls line m d, strContains line mIcx = true →
      parse_json_line pIcx line = some d →
      ∃ e, AL.lookup
          (process_log_file mIcx mCalc mSwap pIcx pCalc pSwap
            (ls ++ [line]) m).data d.claim_tx = some e ∧
        e.icx_data = some d) ∧
    (∀ ls line m d, strContains line mIcx = false →
      strContains line mCalc = true →
      parse_json_line pCalc line = some d →
      ∃ e, AL.lookup
          (process_log_file mIcx mCalc mSwap pIcx pCalc pSwap
            (ls ++ [line]) m).data d.calc_tx = some e ∧
        e.icx_calc_data = some d) ∧
    (∀ ls line m d, strContains line mIcx = false →
      strContains line mCalc = false →
      strContains line mSwap = true →
      parse_json_line pSwap line = some d →
      ∃ e, AL.lookup
          (process_log_file mIcx mCalc mSwap pIcx pCalc pSwap
            (ls ++ [line]) m).data d.txid = some e ∧
        e.swap_data = some d) := by
  have hfoldapp : ∀ ls line m,
      process_log_file mIcx mCalc mSwap pIcx pCalc pSwap (ls ++ [line]) m =
        processLogLine mIcx mCalc mSwap pIcx pCalc pSwap
          (process_log_file mIcx mCalc mSwap pIcx pCalc pSwap ls m) line := by
    intro ls line m
    simp [process_log_file, List.foldl_append]
  refine ⟨?_, ?_, ?_, ?_, ?_, ?_⟩
  · intro line lines m h1 h2
    simp only [process_log_file, List.foldl_cons]
    have hstep : processLogLine mIcx mCalc mSwap pIcx pCalc pSwap m line = m := by
      simp [processLogLine, h1, h2]
    rw [hstep]
  · intro line lines m h1 h2 h3
    simp only [process_log_file, List.foldl_cons]
    have hstep : processLogLine mIcx mCalc mSwap pIcx pCalc pSwap m line = m := by
      simp [processLogLine, h1, h2, h3]
    rw [hstep]
  · intro line lines m h1 h2 h3 h4
    simp only [process_log_file, List.foldl_cons]
    have hstep : processLogLine mIcx mCalc mSwap pIcx pCalc pSwap m line = m := by
      simp [processLogLine, h1, h2, h3, h4]
    rw [hstep]
  · intro ls line m d h1 h2
    rw [hfoldapp]
    simp only [processLogLine, h1, h2, if_true]
    refine ⟨{ (AL.lookup (process_log_file mIcx mCalc mSwap pIcx pCalc pSwap
        ls m).data d.claim_tx).getD LogEntry.new with
          icx_data := some d }, ?_, rfl⟩
    rw [lookup_updEntry]
    simp
  · intro ls line m d h1 h2 h3
    rw [hfoldapp]
    simp only [processLogLine, h1, h2, h3, if_true, Bool.false_eq_true,
      if_false]
    refine ⟨{ (AL.lookup (process_log_file mIcx mCalc mSwap pIcx pCalc pSwap
        ls m).data d.calc_tx).getD LogEntry.new with
          icx_calc_data := some d }, ?_, rfl⟩
    rw [lookup_updEntry]
    simp
  · intro ls line m d h1 h2 h3 h4
    rw [hfoldapp]
    simp only [processLogLine, h1, h2, h3, h4, if_true, Bool.false_eq_true,
      if_false]
    refine ⟨{ (AL.lookup (process_log_file mIcx mCalc mSwap pIcx pCalc pSwap
        ls m).data d.txid).getD LogEntry.new with
          swap_data := some d }, ?_, rfl⟩
    rw [lookup_updEntry]
    simp

open Indexer in
/-- Witness for C7 with the default matchers: a tagged line with no JSON
suffix is skipped; of two ICX records with the same `claim_tx` key
`"T"`, the later one is the one stored. -/
theorem c7_process_log_file_witness :
    (process_log_file "ICX:" "ICXCalc:" "SwapResult:"
        (fun s => if s = "{1}" then
            some { order_tx := "O1", offer_tx := "F1", dfchtlc_tx := "D1",
                   claim_tx := "T", address := "A1", amount := "1" }
          else if s = "{2}" then
            some { order_tx := "O2", offer_tx := "F2", dfchtlc_tx := "D2",
                   claim_tx := "T", address := "A2", amount := "2" }
          else none)
        (fun _ => (none : Option LogIcxCalcData))
        (fun _ => (none : Option LogSwapData))
        ["x ICX: nojson"] LogEntryMap.new =
      process_log_file "ICX:" "ICXCalc:" "SwapResult:"
        (fun s => if s = "{1}" then
            some { order_tx := "O1", offer_tx := "F1", dfchtlc_tx := "D1",
                   claim_tx := "T", address := "A1", amount := "1" }
          else if s = "{2}" then
            some { order_tx := "O2", offer_tx := "F2", dfchtlc_tx := "D2",
                   claim_tx := "T", address := "A2", amount := "2" }
          else none)
        (fun _ => (none : Option LogIcxCalcData))
        (fun _ => (none : Option LogSwapData))
        [] LogEntryMap.new) ∧
    (∃ e, AL.lookup
        (process_log_file "ICX:" "ICXCalc:" "SwapResult:"
          (fun s => if s = "{1}" then
              some { order_tx := "O1", offer_tx := "F1", dfchtlc_tx := "D1",
                     claim_tx := "T", address := "A1", amount := "1" }
            else if s = "{2}" then
              some { order_tx := "O2", offer_tx := "F2", dfchtlc_tx := "D2",
                     claim_tx := "T", address := "A2", amount := "2" }
            else none)
          (fun _ => (none : Option LogIcxCalcData))
          (fun _ => (none : Option LogSwapData))
          (["a ICX: {1}"] ++ ["b ICX: {2}"]) LogEntryMap.new).data "T" =
        some e ∧
      e.icx_data = some { order_tx := "O2", offer_tx := "F2",
                          dfchtlc_tx := "D2", claim_tx := "T",
                          address := "A2", amount := "2" }) := by
  constructor
  · exact (c7_process_log_file "ICX:" "ICXCalc:" "SwapResult:" _ _ _).1
      "x ICX: nojson" [] LogEntryMap.new (by decide) (by decide)
  · exact (c7_process_log_file "ICX:" "ICXCalc:" "SwapResult:"
      (fun s => if s = "{1}" then
          some { order_tx := "O1", offer_tx := "F1", dfchtlc_tx := "D1",
                 claim_tx := "T", address := "A1", amount := "1" }
        else if s = "{2}" then
          some { order_tx := "O2", offer_tx := "F2", dfchtlc_tx := "D2",
                 claim_tx := "T", address := "A2", amount := "2" }
        else none)
      (fun _ => (none : Option LogIcxCalcData))
      (fun _ => (none : Option LogSwapData))).2.2.2.1
      ["a ICX: {1}"] "b ICX: {2}" LogEntryMap.new
      { order_tx := "O2", offer_tx := "F2", dfchtlc_tx := "D2",
        claim_tx := "T", address := "A2", amount := "2" }
      (by decide) (by decide)

open Indexer in
/-- Lookup in an association list with one binding appended. -/
theorem lookup_append_single {K V : Type} [DecidableEq K]
    (m : List (K × V)) (a : K) (v : V) (k : K) :
    AL.lookup (m ++ [(a, v)]) k =
      match AL.lookup m k with
      | some x => some x
      | none => if a = k then some v else none := by
  induction m with
  | nil => simp [AL.lookup]
  | cons p t ih =>
    obtain ⟨b, c⟩ := p
    by_cases hbk : b = k <;> simp [AL.lookup, hbk, ih]

open Indexer in
/-- `addNodes` leaves edges alone, only appends node labels, preserves
existing node ids, indexes every requested address, and preserves the
builder invariant. -/
theorem addNodes_spec : ∀ (addrs : List String) (st : GraphState),
    (addNodes st addrs).edges = st.edges ∧
    (∃ ext, (addNodes st addrs).nodes = st.nodes ++ ext) ∧
    (∀ a i, AL.lookup st.node_index a = some i →
      AL.lookup (addNodes st addrs).node_index a = some i) ∧
    (∀ a, a ∈ addrs →
      (AL.lookup (addNodes st addrs).node_index a).isSome = true) ∧
    (GraphInv st → GraphInv (addNodes st addrs)) := by
  intro addrs
  induction addrs with
  | nil =>
    intro st
    refine ⟨rfl, ⟨[], by simp [addNodes]⟩, fun a i h => h, ?_, fun h => h⟩
    intro a ha
    simp at ha
  | cons a t ih =>
    intro st
    cases hl : AL.lookup st.node_index a with
    | some i =>
      have hstep : addNodes st (a :: t) = addNodes st t := by
        simp [addNodes, hl]
      obtain ⟨he, hex, hpres, hcov, hinv⟩ := ih st
      rw [hstep]
      refine ⟨he, hex, hpres, ?_, hinv⟩
      intro x hx
      rcases List.mem_cons.mp hx with h1 | h2
      · subst h1
        rw [hpres x i hl]
        rfl
      · exact hcov x h2
    | none =>
      have hstep : addNodes st (a :: t) =
          addNodes ⟨st.nodes ++ [a], st.edges,
            st.node_index ++ [(a, st.nodes.length)]⟩ t := by
        simp [addNodes, hl]
      obtain ⟨he, ⟨ext, hn⟩, hpres, hcov, hinv⟩ :=
        ih ⟨st.nodes ++ [a], st.edges,
          st.node_index ++ [(a, st.nodes.length)]⟩
      rw [hstep]
      have hlook1 : ∀ x j, AL.lookup st.node_index x = some j →
          AL.lookup (st.node_index ++ [(a, st.nodes.length)]) x = some j := by
        intro x j hx
        rw [lookup_append_single]
        simp [hx]
      refine ⟨he, ⟨[a] ++ ext, by rw [hn]; simp⟩, ?_, ?_, ?_⟩
      · intro x j hx
        exact hpres x j (hlook1 x j hx)
      · intro x hx
        rcases List.mem_cons.mp hx with h1 | h2
        · rw [h1]
          have hx1 : AL.lookup (st.node_index ++ [(a, st.nodes.length)]) a =
              some st.nodes.length := by
            rw [lookup_append_single]
            simp [hl]
          rw [hpres _ _ hx1]
          rfl
        · exact hcov x h2
      · intro hInv
        apply hinv
        obtain ⟨hA, hB⟩ := hInv
        constructor
        · intro x j hx
          rw [lookup_append_single] at hx
          cases hox : AL.lookup st.node_index x with
          | some jj =>
            rw [hox] at hx
            have hjj : jj = j := Option.some.inj hx
            subst hjj
            obtain ⟨hlt, hget⟩ := hA x jj hox
            constructor
            · simp only [List.length_append, List.length_cons,
                List.length_nil]
              omega
            · rw [List.getD_append st.nodes [a] "" jj hlt]
              exact hget
          | none =>
            rw [hox] at hx
            by_cases hax : a = x
            · rw [if_pos hax] at hx
              have hj : st.nodes.length = j := Option.some.inj hx
              subst hj
              constructor
              · simp
              · rw [List.getD_append_right st.nodes [a] ""
                  st.nodes.length (le_refl _)]
                simpa using hax
            · rw [if_neg hax] at hx
              exact absurd hx (by simp)
        · intro e hee
          obtain ⟨h1, h2⟩ := hB e hee
          constructor <;>
            · simp only [List.length_append, List.length_cons,
                List.length_nil]
              omega

open Indexer in
/-- The inner edge-adding loop: edges appended in order, nothing else
touched. -/
theorem edge_inner_fold (ins : List String) (to_addr txid : String) :
    ∀ (st : GraphState),
    ins.foldl (fun st from_addr =>
      { st with edges := st.edges ++
        [((AL.lookup st.node_index from_addr).getD 0,
          (AL.lookup st.node_index to_addr).getD 0, txid)] }) st =
    { st with edges := st.edges ++ ins.map (fun from_addr =>
        ((AL.lookup st.node_index from_addr).getD 0,
         (AL.lookup st.node_index to_addr).getD 0, txid)) } := by
  induction ins with
  | nil => intro st; simp
  | cons f t ih =>
    intro st
    rw [List.foldl_cons, ih]
    simp

open Indexer in
/-- The nested edge-adding loops: one edge appended per
`(from, to) ∈ ins × outs`, in iteration order. -/
theorem edge_outer_fold (outs ins : List String) (txid : String) :
    ∀ (st : GraphState),
    outs.foldl (fun st to_addr =>
      ins.foldl (fun st from_addr =>
        { st with edges := st.edges ++
          [((AL.lookup st.node_index from_addr).getD 0,
            (AL.lookup st.node_index to_addr).getD 0, txid)] }) st) st =
    { st with edges := st.edges ++ outs.flatMap (fun to_addr =>
        ins.map (fun from_addr =>
          ((AL.lookup st.node_index from_addr).getD 0,
           (AL.lookup st.node_index to_addr).getD 0, txid))) } := by
  induction outs with
  | nil => intro st; simp
  | cons o t ih =>
    intro st
    rw [List.foldl_cons, edge_inner_fold, ih]
    simp

open Indexer in
/-- One builder step preserves the invariant and appends exactly the
label-level `ins × outs` product triples of this tx. -/
theorem grapherStep_spec (st : GraphState) (tx : GTxRow)
    (h : GraphInv st) :
    GraphInv (grapherStep st tx) ∧
    graphTriples (grapherStep st tx) = graphTriples st ++
      (combine_addrs_with_multi_sig tx.tx_out tx.dvm_out).flatMap
        (fun to_addr =>
          (combine_addrs_with_multi_sig tx.tx_in tx.dvm_in).map
            (fun from_addr => (from_addr, to_addr, tx.txid))) := by
  obtain ⟨he, ⟨ext, hn⟩, hpres, hcov, hinv⟩ :=
    addNodes_spec (combine_addrs_with_multi_sig tx.tx_in tx.dvm_in ++
      combine_addrs_with_multi_sig tx.tx_out tx.dvm_out) st
  have hInv1 := hinv h
  have hred := edge_outer_fold
    (combine_addrs_with_multi_sig tx.tx_out tx.dvm_out)
    (combine_addrs_with_multi_sig tx.tx_in tx.dvm_in)
    tx.txid
    (addNodes st (combine_addrs_with_multi_sig tx.tx_in tx.dvm_in ++
      combine_addrs_with_multi_sig tx.tx_out tx.dvm_out))
  have hred2 : grapherStep st tx = _ := hred
  have hgetd : ∀ x, x ∈ (combine_addrs_with_multi_sig tx.tx_in tx.dvm_in ++
      combine_addrs_with_multi_sig tx.tx_out tx.dvm_out) →
      ∃ i, AL.lookup (addNodes st
          (combine_addrs_with_multi_sig tx.tx_in tx.dvm_in ++
           combine_addrs_with_multi_sig tx.tx_out
             tx.dvm_out)).node_index x = some i ∧
        i < (addNodes st (combine_addrs_with_multi_sig tx.tx_in tx.dvm_in ++
          combine_addrs_with_multi_sig tx.tx_out
            tx.dvm_out)).nodes.length ∧
        (addNodes st (combine_addrs_with_multi_sig tx.tx_in tx.dvm_in ++
          combine_addrs_with_multi_sig tx.tx_out
            tx.dvm_out)).nodes.getD i "" = x := by
    intro x hx
    obtain ⟨i, hi⟩ := Option.isSome_iff_exists.mp (hcov x hx)
    exact ⟨i, hi, (hInv1.1 x i hi).1, (hInv1.1 x i hi).2⟩
  constructor
  · rw [hred2]
    refine ⟨hInv1.1, ?_⟩
    intro e hee
    rcases List.mem_append.mp hee with h1 | h2
    · exact hInv1.2 e h1
    · obtain ⟨o, ho, hmm⟩ := List.mem_flatMap.mp h2
      obtain ⟨fr, hfr, hfe⟩ := List.mem_map.mp hmm
      obtain ⟨i, hi, hib, _⟩ := hgetd fr (List.mem_append_left _ hfr)
      obtain ⟨j, hj, hjb, _⟩ := hgetd o (List.mem_append_right _ ho)
      rw [← hfe]
      exact ⟨by simp [hi, hib], by simp [hj, hjb]⟩
  · rw [hred2]
    simp only [graphTriples, List.map_append]
    congr 1
    · -- old edges keep their labels
      rw [he]
      apply List.map_congr_left
      intro e hee
      obtain ⟨h1, h2⟩ := h.2 e hee
      rw [hn]
      rw [List.getD_append st.nodes ext "" e.1 h1,
        List.getD_append st.nodes ext "" e.2.1 h2]
    · -- new edges carry the address labels
      have hnew : ∀ (os : List String),
          (∀ x ∈ os,
            x ∈ combine_addrs_with_multi_sig tx.tx_out tx.dvm_out) →
          (os.flatMap (fun to_addr =>
            (combine_addrs_with_multi_sig tx.tx_in tx.dvm_in).map
              (fun from_addr =>
                ((AL.lookup (addNodes st
                    (combine_addrs_with_multi_sig tx.tx_in tx.dvm_in ++
                     combine_addrs_with_multi_sig tx.tx_out
                       tx.dvm_out)).node_index from_addr).getD 0,
                 (AL.lookup (addNodes st
                    (combine_addrs_with_multi_sig tx.tx_in tx.dvm_in ++
                     combine_addrs_with_multi_sig tx.tx_out
                       tx.dvm_out)).node_index to_addr).getD 0,
                 tx.txid)))).map (fun e =>
              ((addNodes st
                  (combine_addrs_with_multi_sig tx.tx_in tx.dvm_in ++
                   combine_addrs_with_multi_sig tx.tx_out
                     tx.dvm_out)).nodes.getD e.1 "",
               (addNodes st
                  (combine_addrs_with_multi_sig tx.tx_in tx.dvm_in ++
                   combine_addrs_with_multi_sig tx.tx_out
                     tx.dvm_out)).nodes.getD e.2.1 "",
               e.2.2)) =
            os.flatMap (fun to_addr =>
              (combine_addrs_with_multi_sig tx.tx_in tx.dvm_in).map
                (fun from_addr => (from_addr, to_addr, tx.txid))) := by
        intro os
        induction os with
        | nil => intro _; rfl
        | cons o t ih2 =>
          intro hsub
          simp only [List.flatMap_cons, List.map_append]
          rw [ih2 (fun x hx => hsub x (List.mem_cons_of_mem o hx))]
          congr 1
          rw [List.map_map]
          apply List.map_congr_left
          intro fr hfr
          obtain ⟨i, hi, _, hilab⟩ := hgetd fr (List.mem_append_left _ hfr)
          obtain ⟨j, hj, _, hjlab⟩ := hgetd o (List.mem_append_right _
            (hsub o (List.mem_cons_self o t)))
          simp only [Function.comp_apply, hi, hj, Option.getD_some]
          rw [hilab, hjlab]
      exact hnew _ (fun x hx => hx)

open Indexer in
/-- The whole builder run: invariant holds and the triples are exactly
the per-tx products, in order. -/
theorem buildGraph_go : ∀ (txs : List GTxRow) (st : GraphState),
    GraphInv st →
    GraphInv (txs.foldl grapherStep st) ∧
    graphTriples (txs.foldl grapherStep st) =
      graphTriples st ++ txs.flatMap (fun tx =>
        (combine_addrs_with_multi_sig tx.tx_out tx.dvm_out).flatMap
          (fun to_addr =>
            (combine_addrs_with_multi_sig tx.tx_in tx.dvm_in).map
              (fun from_addr => (from_addr, to_addr, tx.txid)))) := by
  intro txs
  induction txs with
  | nil => intro st h; exact ⟨h, by simp⟩
  | cons tx t ih =>
    intro st h
    obtain ⟨hInv2, htr⟩ := grapherStep_spec st tx h
    obtain ⟨hInv3, htr3⟩ := ih (grapherStep st tx) hInv2
    rw [List.foldl_cons]
    refine ⟨hInv3, ?_⟩
    rw [htr3, htr, List.flatMap_cons, List.append_assoc]

open Indexer in
/-- `specTriplesAmended` flattened to the same `flatMap` normal form. -/
theorem specTriplesAmended_flat (txs : List GTxRow) :
    specTriplesAmended txs = txs.flatMap (fun tx =>
      (combine_addrs_with_multi_sig tx.tx_out tx.dvm_out).flatMap
        (fun to_addr =>
          (combine_addrs_with_multi_sig tx.tx_in tx.dvm_in).map
            (fun from_addr => (from_addr, to_addr, tx.txid)))) := by
  have hinner : ∀ (ins : List String) (to_addr txid : String)
      (acc : List (String × String × String)),
      ins.foldl (fun acc from_addr => acc ++ [(from_addr, to_addr, txid)])
        acc = acc ++ ins.map (fun from_addr => (from_addr, to_addr, txid)) := by
    intro ins to_addr txid
    induction ins with
    | nil => intro acc; simp
    | cons f t ih =>
      intro acc
      rw [List.foldl_cons, ih]
      simp
  have houter : ∀ (outs ins : List String) (txid : String)
      (acc : List (String × String × String)),
      outs.foldl (fun acc to_addr =>
        ins.foldl (fun acc from_addr =>
          acc ++ [(from_addr, to_addr, txid)]) acc) acc =
        acc ++ outs.flatMap (fun to_addr =>
          ins.map (fun from_addr => (from_addr, to_addr, txid))) := by
    intro outs ins txid
    induction outs with
    | nil => intro acc; simp
    | cons o t ih =>
      intro acc
      rw [List.foldl_cons, hinner, ih]
      simp
  have hmain : ∀ (ts : List GTxRow) (acc : List (String × String × String)),
      ts.foldl (fun acc tx =>
        acc ++ (combine_addrs_with_multi_sig tx.tx_out tx.dvm_out).foldl
          (fun acc to_addr =>
            (combine_addrs_with_multi_sig tx.tx_in tx.dvm_in).foldl
              (fun acc from_addr =>
                acc ++ [(from_addr, to_addr, tx.txid)]) acc) []) acc =
        acc ++ ts.flatMap (fun tx =>
          (combine_addrs_with_multi_sig tx.tx_out tx.dvm_out).flatMap
            (fun to_addr =>
              (combine_addrs_with_multi_sig tx.tx_in tx.dvm_in).map
                (fun from_addr => (from_addr, to_addr, tx.txid)))) := by
    intro ts
    induction ts with
    | nil => intro acc; simp
    | cons tx t ih =>
      intro acc
      rw [List.foldl_cons, ih, houter]
      simp
  simpa [specTriplesAmended] using hmain txs []

open Indexer in
/-- C2 counterexample: a tx row whose `dvm_in` holds the composite
address `"c+d"` — the builder inserts it unsplit, so the produced triple
set differs from the claim's all-composites-split union at the triple
`("c", "e", txid)`. -/
theorem c2_graph_determinism_counterexample :
    ("c", "e", "t") ∈ specTriples
      [{ txid := "t", tx_in := ["a+b"], tx_out := ["e"],
         dvm_in := ["c+d"], dvm_out := [] }] ∧
    ("c", "e", "t") ∉ graphTriples (buildGraph
      [{ txid := "t", tx_in := ["a+b"], tx_out := ["e"],
         dvm_in := ["c+d"], dvm_out := [] }]) ∧
    ("c+d", "e", "t") ∈ graphTriples (buildGraph
      [{ txid := "t", tx_in := ["a+b"], tx_out := ["e"],
         dvm_in := ["c+d"], dvm_out := [] }]) := by
  refine ⟨?_, ?_, ?_⟩ <;> decide

open Indexer in
/-- C2 amended: with a fixed tx-iteration order, the builder's
`(src_addr, dst_addr, txid)` triples are exactly the per-tx
`tx_ins × tx_outs` products where composite splitting applies to the
`tx_in`/`tx_out` map keys only — `dvm_in`/`dvm_out` entries are inserted
unsplit (list equality, hence equality as sets ignoring
multiplicity). -/
theorem c2_graph_determinism_amended (txs : List GTxRow) :
    graphTriples (buildGraph txs) = specTriplesAmended txs := by
  have hInv0 : GraphInv ⟨[], [], []⟩ := by
    constructor
    · intro a idx hx
      simp [AL.lookup] at hx
    · intro e he
      simp at he
  have h := buildGraph_go txs ⟨[], [], []⟩ hInv0
  have hb : buildGraph txs = txs.foldl grapherStep ⟨[], [], []⟩ := rfl
  rw [hb, h.2, specTriplesAmended_flat]
  rfl

open Indexer in
/-- Successor membership is edge adjacency. -/
theorem mem_succs_iff (edges : List (Nat × Nat × String)) (u v : Nat) :
    v ∈ succs edges u ↔ adjB edges u v = true := by
  constructor
  · intro hv
    obtain ⟨e, he, hee⟩ := List.mem_filterMap.mp hv
    by_cases h1 : e.1 = u
    · rw [if_pos h1] at hee
      have h2 : e.2.1 = v := Option.some.inj hee
      refine (List.any_eq_true).mpr ⟨e, he, ?_⟩
      simp [h1, h2]
    · rw [if_neg h1] at hee
      exact absurd hee (by simp)
  · intro ha
    obtain ⟨e, he, hee⟩ := (List.any_eq_true).mp ha
    have h12 : e.1 = u ∧ e.2.1 = v := by simpa using hee
    refine List.mem_filterMap.mpr ⟨e, he, ?_⟩
    rw [if_pos h12.1, h12.2]

open Indexer in
/-- A length-`0` walk is equality of endpoints. -/
theorem walkLen_zero_iff (edges : List (Nat × Nat × String)) (u v : Nat) :
    WalkLen edges 0 u v ↔ u = v := by
  constructor
  · intro h
    cases h
    rfl
  · intro h
    rw [h]
    exact WalkLen.zero v

open Indexer in
/-- A length-`k+1` walk decomposes into a length-`k` walk plus one
edge. -/
theorem walkLen_succ_iff (edges : List (Nat × Nat × String))
    (k u w : Nat) :
    WalkLen edges (k + 1) u w ↔
      ∃ v, WalkLen edges k u v ∧ adjB edges v w = true := by
  constructor
  · intro h
    cases h with
    | succ h1 h2 => exact ⟨_, h1, h2⟩
  · rintro ⟨v, h1, h2⟩
    exact WalkLen.succ h1 h2

open Indexer in
/-- The `k`-th BFS layer holds exactly the endpoints of length-`k`
walks from `src`. -/
theorem mem_layerB_iff (edges : List (Nat × Nat × String)) (src : Nat) :
    ∀ (k v : Nat), v ∈ layerB edges src k ↔ WalkLen edges k src v := by
  intro k
  induction k with
  | zero =>
    intro v
    rw [walkLen_zero_iff]
    simp [layerB, eq_comm]
  | succ k ih =>
    intro v
    rw [walkLen_succ_iff]
    constructor
    · intro hv
      rw [layerB, List.mem_dedup] at hv
      obtain ⟨u, hu, hv2⟩ := List.mem_flatMap.mp hv
      exact ⟨u, (ih u).mp hu, (mem_succs_iff edges u v).mp hv2⟩
    · rintro ⟨u, h1, h2⟩
      rw [layerB, List.mem_dedup]
      exact List.mem_flatMap.mpr
        ⟨u, (ih u).mpr h1, (mem_succs_iff edges u v).mpr h2⟩

open Indexer in
/-- Extending a chain by one adjacent node keeps it a chain. -/
theorem chainB_append_last (edges : List (Nat × Nat × String)) :
    ∀ (p : List Nat) (u v : Nat), chainB edges p = true →
      p.getLast? = some u → adjB edges u v = true →
      chainB edges (p ++ [v]) = true := by
  intro p
  induction p with
  | nil =>
    intro u v _ h2 _
    simp at h2
  | cons a t ih =>
    intro u v h1 h2 h3
    cases t with
    | nil =>
      have hau : a = u := by simpa using h2
      subst hau
      simp [chainB, h3]
    | cons b t2 =>
      rw [chainB, Bool.and_eq_true] at h1
      have hab := h1
      have h2' : (b :: t2).getLast? = some u := by
        rw [← h2, List.getLast?_cons_cons]
      have hrec := ih u v hab.2 h2' h3
      show chainB edges (a :: ((b :: t2) ++ [v])) = true
      rw [List.cons_append, chainB]
      rw [List.cons_append] at hrec
      simp [hab.1, hrec]

open Indexer in
/-- Every layer member has a reconstructed path: `k+1` nodes from `src`
to it, consecutive nodes adjacent. -/
theorem buildPath_spec (edges : List (Nat × Nat × String)) (src : Nat) :
    ∀ (k v : Nat), v ∈ layerB edges src k →
      ∃ p, buildPath edges src k v = some p ∧ p.length = k + 1 ∧
        p.head? = some src ∧ p.getLast? = some v ∧
        chainB edges p = true := by
  intro k
  induction k with
  | zero =>
    intro v hv
    have hvs : v = src := by simpa [layerB] using hv
    subst hvs
    exact ⟨[v], by simp [buildPath], rfl, rfl, rfl, rfl⟩
  | succ k ih =>
    intro v hv
    have hex : ∃ u ∈ layerB edges src k, adjB edges u v = true := by
      rw [layerB, List.mem_dedup] at hv
      obtain ⟨u, hu, hv2⟩ := List.mem_flatMap.mp hv
      exact ⟨u, hu, (mem_succs_iff edges u v).mp hv2⟩
    have hfind : ((layerB edges src k).find?
        (fun u => adjB edges u v)).isSome = true := by
      rw [List.find?_isSome]
      obtain ⟨u, hu, ha⟩ := hex
      exact ⟨u, hu, ha⟩
    obtain ⟨u, hufind⟩ := Option.isSome_iff_exists.mp hfind
    have hu_mem : u ∈ layerB edges src k := List.mem_of_find?_eq_some hufind
    have hu_adj : adjB edges u v = true := by
      simpa using List.find?_some hufind
    obtain ⟨p0, hbp, hlen, hhead, hlast, hchain⟩ := ih u hu_mem
    refine ⟨p0 ++ [v], ?_, ?_, ?_, ?_, ?_⟩
    · simp [buildPath, hufind, hbp]
    · simp [hlen]
    · cases p0 with
      | nil => simp at hhead
      | cons a t => simpa using hhead
    · simp
    · exact chainB_append_last edges p0 u v hchain hlast hu_adj

open Indexer in
/-- `find?` over `range n` returns the least index satisfying the
predicate, when one exists below `n`. -/
theorem find?_range_least {p : Nat → Bool} {d n : Nat} (hd : p d = true)
    (hlt : ∀ j, j < d → p j = false) (hdn : d < n) :
    (List.range n).find? p = some d := by
  induction n with
  | zero => omega
  | succ n ih =>
    rw [List.range_succ, List.find?_append]
    by_cases hcase : d < n
    · rw [ih hcase]
      rfl
    · have hdn2 : d = n := by omega
      subst hdn2
      have hnone : (List.range d).find? p = none := by
        rw [List.find?_eq_none]
        intro x hx
        simp [hlt x (List.mem_range.mp hx)]
      rw [hnone]
      simp [List.find?, hd]

open Indexer in
/-- C8: for a `(src, dest)` pair both present in `node_index` with
`dest` reachable from `src` at BFS distance `d` (a walk of `d` edges
exists, none shorter), the empty-ignore shortest-path search returns
cost `d` and a path of `d + 1` nodes — i.e. `d` hops — from `src` to
`dest` whose consecutive nodes are edges. -/
theorem c8_spath_hops_eq_bfs_distance (st : GraphState)
    (srcA dstA : String) (si di d fuel : Nat)
    (hs : AL.lookup st.node_index srcA = some si)
    (hd : AL.lookup st.node_index dstA = some di)
    (hreach : WalkLen st.edges d si di)
    (hmin : ∀ j, WalkLen st.edges j si di → d ≤ j)
    (hfuel : d ≤ fuel) :
    ∃ p, spath_pair_outcome st fuel srcA dstA = .found d p ∧
      p.length = d + 1 ∧ p.head? = some si ∧ p.getLast? = some di ∧
      chainB st.edges p = true := by
  have hlayer : di ∈ layerB st.edges si d :=
    (mem_layerB_iff st.edges si d di).mpr hreach
  have hfind : (List.range (fuel + 1)).find?
      (fun k => decide (di ∈ layerB st.edges si k)) = some d := by
    apply find?_range_least
    · simpa using hlayer
    · intro j hj
      by_contra hcon
      have hmem : di ∈ layerB st.edges si j := by
        simpa using Bool.of_not_eq_false hcon
      have := hmin j ((mem_layerB_iff st.edges si j di).mp hmem)
      omega
    · omega
  obtain ⟨p, hbp, hlen, hhead, hlast, hchain⟩ :=
    buildPath_spec st.edges si d di hlayer
  have hastar : astarModel st.edges si di fuel = some (d, p) := by
    rw [astarModel, hfind]
    simp [hbp]
  refine ⟨p, ?_, hlen, hhead, hlast, hchain⟩
  simp [spath_pair_outcome, hs, hd, hastar]

open Indexer in
/-- Witness for C8 on a three-node graph with a direct edge `a → c` and
a two-hop detour `a → b → c`: the search finds distance 1. -/
theorem c8_spath_hops_eq_bfs_distance_witness :
    ∃ p, spath_pair_outcome
        { nodes := ["a", "b", "c"],
          edges := [(0, 1, "t1"), (1, 2, "t2"), (0, 2, "t3")],
          node_index := [("a", 0), ("b", 1), ("c", 2)] } 3 "a" "c" =
      .found 1 p ∧
      p.length = 2 ∧ p.head? = some 0 ∧ p.getLast? = some 2 ∧
      chainB [(0, 1, "t1"), (1, 2, "t2"), (0, 2, "t3")] p = true := by
  apply c8_spath_hops_eq_bfs_distance
      { nodes := ["a", "b", "c"],
        edges := [(0, 1, "t1"), (1, 2, "t2"), (0, 2, "t3")],
        node_index := [("a", 0), ("b", 1), ("c", 2)] } "a" "c" 0 2 1 3
      (by decide) (by decide)
  · exact WalkLen.succ (WalkLen.zero 0) (by decide)
  · intro j hw
    match j, hw with
    | 0, hw => cases hw
    | j + 1, _ => omega
  · omega

open Indexer in
/-- C9 counterexample: in the single-pair `gpath` mode, a src missing
from `node_index` returns an error instead of emitting a message and
continuing, refuting the claim that both shortest-path modes continue. -/
theorem c9_missing_addr_counterexample :
    gpathRun { nodes := [], edges := [], node_index := [] } "a" "b" 0 =
      Except.error "src not found: a" := by
  rfl

open Indexer in
/-- C9 amended: the multi-pair `spath` runner never fails — it produces
exactly one outcome per `(src, dest)` pair, a missing src or dest
yielding its message outcome while iteration continues through all
pairs; the single-pair `gpath` runner instead returns an error for a
missing src or dest. -/
theorem c9_missing_addr_amended (st : GraphState) (fuel : Nat)
    (src_addrs dest_addrs : List String) :
    (path_find_astar_fixed_cost st src_addrs dest_addrs fuel =
      src_addrs.flatMap (fun src =>
        dest_addrs.map (fun dest => spath_pair_outcome st fuel src dest))) ∧
    (∀ src dest, AL.lookup st.node_index src = none →
      spath_pair_outcome st fuel src dest = .srcNotFound src) ∧
    (∀ src dest si, AL.lookup st.node_index src = some si →
      AL.lookup st.node_index dest = none →
      spath_pair_outcome st fuel src dest = .destNotFound dest) ∧
    (∀ src dest, AL.lookup st.node_index src = none →
      gpathRun st src dest fuel = .error ("src not found: " ++ src)) ∧
    (∀ src dest si, AL.lookup st.node_index src = some si →
      AL.lookup st.node_index dest = none →
      gpathRun st src dest fuel = .error ("dest not found: " ++ dest)) := by
  have hinner : ∀ (ds : List String) (acc : List PairOutcome) (src : String),
      ds.foldl (fun acc dest =>
        acc ++ [spath_pair_outcome st fuel src dest]) acc =
        acc ++ ds.map (spath_pair_outcome st fuel src) := by
    intro ds
    induction ds with
    | nil => intro acc src; simp
    | cons d t ih =>
      intro acc src
      rw [List.foldl_cons, ih]
      simp
  refine ⟨?_, ?_, ?_, ?_, ?_⟩
  · have houter : ∀ (ss : List String) (acc : List PairOutcome),
        ss.foldl (fun acc src =>
          dest_addrs.foldl (fun acc dest =>
            acc ++ [spath_pair_outcome st fuel src dest]) acc) acc =
          acc ++ ss.flatMap (fun src =>
            dest_addrs.map (fun dest => spath_pair_outcome st fuel src dest)) := by
      intro ss
      induction ss with
      | nil => intro acc; simp
      | cons s t ih =>
        intro acc
        rw [List.foldl_cons, hinner, ih]
        simp
    simpa [path_find_astar_fixed_cost] using houter src_addrs []
  · intro src dest h
    simp [spath_pair_outcome, h]
  · intro src dest si h1 h2
    simp [spath_pair_outcome, h1, h2]
  · intro src dest h
    simp [gpathRun, h]
  · intro src dest si h1 h2
    simp [gpathRun, h1, h2]

open Indexer in
/-- Witness for C9's amended theorem on a one-node graph: the missing
source `"zz"` yields a message outcome in the spath runner (and the run
still covers every pair), while the gpath runner errors on it. -/
theorem c9_missing_addr_amended_witness :
    spath_pair_outcome
        { nodes := ["a"], edges := [], node_index := [("a", 0)] } 1 "zz" "a" =
      PairOutcome.srcNotFound "zz" ∧
    gpathRun { nodes := ["a"], edges := [], node_index := [("a", 0)] }
        "zz" "a" 1 = .error ("src not found: " ++ "zz") := by
  constructor
  · exact (c9_missing_addr_amended
      { nodes := ["a"], edges := [], node_index := [("a", 0)] } 1
      ["zz"] ["a"]).2.1 "zz" "a" (by decide)
  · exact (c9_missing_addr_amended
      { nodes := ["a"], edges := [], node_index := [("a", 0)] } 1
      ["zz"] ["a"]).2.2.2.1 "zz" "a" (by decide)

open Indexer in
/-- C10: in the walk's per-edge accumulation, a `PoolSwap` row with
`swap_from = "btc"` whose `swap_amt` fails to parse panics (the
`unwrap`, embedded as `none`), while an `ICXClaimDFCHTLC` row whose
`icx_btc_exp_amt` fails to parse is logged and skipped, the totals
unchanged. -/
theorem c10_walk_swap_amt_unwrap {A : Type} (parse : String → Option A)
    (add : A → A → A) :
    (∀ tx totalB totalI, TxType.from_display tx.tx_type = TxType.PoolSwap →
      tx.swap_from = "btc" → parse tx.swap_amt = none →
      walkEdgeAccum parse add tx totalB totalI = none) ∧
    (∀ tx totalB totalI,
      TxType.from_display tx.tx_type = TxType.ICXClaimDFCHTLC →
      parse tx.icx_btc_exp_amt = none →
      walkEdgeAccum parse add tx totalB totalI = some (totalB, totalI)) := by
  constructor
  · intro tx tB tI ht hs hp
    simp [walkEdgeAccum, ht, hs, hp]
  · intro tx tB tI ht hp
    simp [walkEdgeAccum, ht, hp]

open Indexer in
/-- Witness for C10: with a parser that rejects `"bad"`, a btc PoolSwap
row panics the walk while an ICX claim row leaves the totals `(0, 0)`. -/
theorem c10_walk_swap_amt_unwrap_witness :
    walkEdgeAccum (fun s => if s = "1" then some (1 : Int) else none)
        (· + ·)
        { txid := "t1", height := 9, tx_type := "ps", icx_addr := "",
          icx_btc_exp_amt := "", swap_from := "btc", swap_to := "dfi",
          swap_amt := "bad" } 0 0 = none ∧
    walkEdgeAccum (fun s => if s = "1" then some (1 : Int) else none)
        (· + ·)
        { txid := "t2", height := 9, tx_type := "icx-claim",
          icx_addr := "A", icx_btc_exp_amt := "bad", swap_from := "",
          swap_to := "", swap_amt := "" } 0 0 = some (0, 0) := by
  constructor
  · exact (c10_walk_swap_amt_unwrap
      (fun s => if s = "1" then some (1 : Int) else none) (· + ·)).1
      { txid := "t1", height := 9, tx_type := "ps", icx_addr := "",
        icx_btc_exp_amt := "", swap_from := "btc", swap_to := "dfi",
        swap_amt := "bad" } 0 0 (by decide) rfl (by decide)
  · exact (c10_walk_swap_amt_unwrap
      (fun s => if s = "1" then some (1 : Int) else none) (· + ·)).2
      { txid := "t2", height := 9, tx_type := "icx-claim",
        icx_addr := "A", icx_btc_exp_amt := "bad", swap_from := "",
        swap_to := "", swap_amt := "" } 0 0 (by decide) (by decide)

open Indexer in
/-- C3 counterexample: a transaction whose `vm.txtype` is the string
`"cb"` (which `TxType::from` maps to `Coinbase`) stores `Coinbase` even
though its folded input map is non-empty, refuting the claim's
"non-empty folded tx_in never yields a stored tx_type of Coinbase". -/
theorem c3_coinbase_override_counterexample :
    classify_tx_type (some { vmtype := "dvm", txtype := "cb", msg := "{}" })
      [("A", (1 : Int))] = TxType.Coinbase ∧
    ([("A", (1 : Int))] : List (String × Int)) ≠ [] := by
  constructor
  · rfl
  · simp

open Indexer in
/-- C3 amended: empty folded inputs always store `Coinbase`; with
non-empty folded inputs the stored tx_type is `Coinbase` exactly when
`vm` is present and its `txtype` maps to `Coinbase` under the long-form
decoder (i.e. the literal string `"cb"`). -/
theorem c3_coinbase_override_amended {V : Type} (vm : Option VMInfo)
    (tx_in_addrs : List (String × V)) :
    (tx_in_addrs = [] → classify_tx_type vm tx_in_addrs = TxType.Coinbase) ∧
    (tx_in_addrs ≠ [] →
      (classify_tx_type vm tx_in_addrs = TxType.Coinbase ↔
        ∃ i, vm = some i ∧ TxType.fromStr i.txtype = TxType.Coinbase)) := by
  constructor
  · intro h
    subst h
    rfl
  · intro h
    have hne : tx_in_addrs.isEmpty = false := by
      cases tx_in_addrs with
      | nil => exact absurd rfl h
      | cons a t => rfl
    cases vm with
    | none =>
      simp [classify_tx_type, hne]
    | some i =>
      simp only [classify_tx_type, hne, Bool.false_eq_true, if_false,
        Option.map_some, Option.getD_some]
      constructor
      · intro hc
        exact ⟨i, rfl, hc⟩
      · rintro ⟨j, hj, hc⟩
        cases hj
        exact hc

open Indexer in
/-- Witness for C3's amended theorem: an empty input map stores
`Coinbase`; a non-empty input map with `vm.txtype = "PoolSwap"` does
not. -/
theorem c3_coinbase_override_amended_witness :
    classify_tx_type
      (some { vmtype := "dvm", txtype := "PoolSwap", msg := "{}" })
      ([] : List (String × Int)) = TxType.Coinbase ∧
    ¬(classify_tx_type
        (some { vmtype := "dvm", txtype := "PoolSwap", msg := "{}" })
        [("A", (1 : Int))] = TxType.Coinbase) := by
  constructor
  · exact (c3_coinbase_override_amended
      (some { vmtype := "dvm", txtype := "PoolSwap", msg := "{}" })
      ([] : List (String × Int))).1 rfl
  · intro hc
    have h := (c3_coinbase_override_amended
      (some { vmtype := "dvm", txtype := "PoolSwap", msg := "{}" })
      [("A", (1 : Int))]).2 (by simp) |>.mp hc
    obtain ⟨i, hi, hmap⟩ := h
    cases hi
    exact absurd hmap (by decide)

/-- Witness for C4 at concrete inputs. -/
theorem c4_txtype_codec_bijective_witness :
    Indexer.TxType.from_display Indexer.TxType.PoolSwap.toStr =
      Indexer.TxType.PoolSwap ∧
    Indexer.TxType.from_display
        (Indexer.TxType.fromStr "ICXClaimDFCHTLC").toStr =
      Indexer.TxType.fromStr "ICXClaimDFCHTLC" :=
  ⟨c4_txtype_codec_bijective.1 Indexer.TxType.PoolSwap (by decide),
   c4_txtype_codec_bijective.2.1 "ICXClaimDFCHTLC" (by decide)⟩
